import Mathlib

/-!
Shallow embedding of `tauri-hotkey-rs` (src/src/lib.rs plus the Windows
listener in src/tauri-hotkey-sys/src/windows.rs, which is the platform the
specification's native-layer claims reference; `#[cfg]` items are resolved
for a non-macOS target accordingly).

Strings are handled at the `List Char` level so that every definition is
executable by kernel reduction: `to_uppercase`, `split('+')` and `trim`
are reimplemented structurally, coinciding with the Rust originals on the
ASCII inputs the hotkey grammar deals in.
-/

namespace TauriHotkey

/-- The `Modifier` enum of lib.rs, with its `repr(u32)` discriminants taken
from `tauri_hotkey_sys::modifiers` (windows.rs: `MOD_ALT`, `VK_RMENU`,
`MOD_CONTROL`, `MOD_SHIFT`, `MOD_WIN`). -/
inductive Modifier
  | ALT
  | ALTGR
  | CTRL
  | SHIFT
  | SUPER
deriving DecidableEq

/-- Discriminant value of each modifier (windows.rs `modifiers` module). -/
def Modifier.code : Modifier → Nat
  | .ALT => 0x0001
  | .ALTGR => 0x00A5
  | .CTRL => 0x0002
  | .SHIFT => 0x0004
  | .SUPER => 0x0008

/-- Canonical (Debug/Display) name of a modifier; also the token accepted by
the derived `strum` `from_str`. -/
def Modifier.name : Modifier → String
  | .ALT => "ALT"
  | .ALTGR => "ALTGR"
  | .CTRL => "CTRL"
  | .SHIFT => "SHIFT"
  | .SUPER => "SUPER"

def Modifier.all : List Modifier :=
  [.ALT, .ALTGR, .CTRL, .SHIFT, .SUPER]

/-- `Modifier::from_str` (strum `EnumString`): exact variant-name lookup. -/
def Modifier.fromStr (t : List Char) : Option Modifier :=
  Modifier.all.find? (fun m => decide ((Modifier.name m).data = t))

/-- The `Key` enum of lib.rs for a non-macOS target (so the
`#[cfg(not(target_os = "macos"))]` variants are present), in declaration
order. -/
inductive Key
  | BACKSPACE
  | TAB
  | ENTER
  | CAPSLOCK
  | ESCAPE
  | SPACE
  | PAGEUP
  | PAGEDOWN
  | END
  | HOME
  | LEFT
  | RIGHT
  | UP
  | DOWN
  | PRINTSCREEN
  | INSERT
  | CLEAR
  | DELETE
  | SCROLLLOCK
  | HELP
  | NUMLOCK
  | VOLUMEMUTE
  | VOLUMEDOWN
  | VOLUMEUP
  | MEDIANEXTTRACK
  | MEDIAPREVIOUSTRACK
  | MEDIASTOP
  | MEDIAPLAYPAUSE
  | LAUNCHMAIL
  | F1
  | F2
  | F3
  | F4
  | F5
  | F6
  | F7
  | F8
  | F9
  | F10
  | F11
  | F12
  | NUMADD
  | NUMSUB
  | NUMMULT
  | NUMDIV
  | NUMDEC
  | KEY_0
  | KEY_1
  | KEY_2
  | KEY_3
  | KEY_4
  | KEY_5
  | KEY_6
  | KEY_7
  | KEY_8
  | KEY_9
  | A
  | B
  | C
  | D
  | E
  | F
  | G
  | H
  | I
  | J
  | K
  | L
  | M
  | N
  | O
  | P
  | Q
  | R
  | S
  | T
  | U
  | V
  | W
  | X
  | Y
  | Z
  | EQUAL
  | MINUS
  | SINGLEQUOTE
  | COMMA
  | PERIOD
  | SEMICOLON
  | SLASH
  | OPENQUOTE
  | OPENBRACKET
  | BACKSLASH
  | CLOSEBRACKET
deriving DecidableEq

/-- `repr(u32)` discriminant of each key: the Windows virtual-key codes from
the `tauri_hotkey_sys::keys` module (windows.rs). -/
def Key.code : Key → Nat
  | .BACKSPACE => 0x08
  | .TAB => 0x09
  | .ENTER => 0x0D
  | .CAPSLOCK => 0x14
  | .ESCAPE => 0x1B
  | .SPACE => 0x20
  | .PAGEUP => 0x21
  | .PAGEDOWN => 0x22
  | .END => 0x23
  | .HOME => 0x24
  | .LEFT => 0x25
  | .RIGHT => 0x27
  | .UP => 0x26
  | .DOWN => 0x28
  | .PRINTSCREEN => 0x2C
  | .INSERT => 0x2D
  | .CLEAR => 0x0C
  | .DELETE => 0x2E
  | .SCROLLLOCK => 0x91
  | .HELP => 0x2F
  | .NUMLOCK => 0x90
  | .VOLUMEMUTE => 0xAD
  | .VOLUMEDOWN => 0xAE
  | .VOLUMEUP => 0xAF
  | .MEDIANEXTTRACK => 0xB0
  | .MEDIAPREVIOUSTRACK => 0xB1
  | .MEDIASTOP => 0xB2
  | .MEDIAPLAYPAUSE => 0xB3
  | .LAUNCHMAIL => 0xB4
  | .F1 => 0x70
  | .F2 => 0x71
  | .F3 => 0x72
  | .F4 => 0x73
  | .F5 => 0x74
  | .F6 => 0x75
  | .F7 => 0x76
  | .F8 => 0x77
  | .F9 => 0x78
  | .F10 => 0x79
  | .F11 => 0x7A
  | .F12 => 0x7B
  | .NUMADD => 0x6B
  | .NUMSUB => 0x6D
  | .NUMMULT => 0x6A
  | .NUMDIV => 0x6F
  | .NUMDEC => 0x6E
  | .KEY_0 => 0x30
  | .KEY_1 => 0x31
  | .KEY_2 => 0x32
  | .KEY_3 => 0x33
  | .KEY_4 => 0x34
  | .KEY_5 => 0x35
  | .KEY_6 => 0x36
  | .KEY_7 => 0x37
  | .KEY_8 => 0x38
  | .KEY_9 => 0x39
  | .A => 0x41
  | .B => 0x42
  | .C => 0x43
  | .D => 0x44
  | .E => 0x45
  | .F => 0x46
  | .G => 0x47
  | .H => 0x48
  | .I => 0x49
  | .J => 0x4A
  | .K => 0x4B
  | .L => 0x4C
  | .M => 0x4D
  | .N => 0x4E
  | .O => 0x4F
  | .P => 0x50
  | .Q => 0x51
  | .R => 0x52
  | .S => 0x53
  | .T => 0x54
  | .U => 0x55
  | .V => 0x56
  | .W => 0x57
  | .X => 0x58
  | .Y => 0x59
  | .Z => 0x5A
  | .EQUAL => 0xBB
  | .MINUS => 0xBD
  | .SINGLEQUOTE => 0xDE
  | .COMMA => 0xBC
  | .PERIOD => 0xBE
  | .SEMICOLON => 0xBA
  | .SLASH => 0xBF
  | .OPENQUOTE => 0xC0
  | .OPENBRACKET => 0xDB
  | .BACKSLASH => 0xDC
  | .CLOSEBRACKET => 0xDD

/-- Canonical (Debug/Display) name of a key, which is also the token the
derived `strum` `from_str` accepts (the `serde(rename)` attributes affect
only serde, not Debug or strum). -/
def Key.name : Key → String
  | .BACKSPACE => "BACKSPACE"
  | .TAB => "TAB"
  | .ENTER => "ENTER"
  | .CAPSLOCK => "CAPSLOCK"
  | .ESCAPE => "ESCAPE"
  | .SPACE => "SPACE"
  | .PAGEUP => "PAGEUP"
  | .PAGEDOWN => "PAGEDOWN"
  | .END => "END"
  | .HOME => "HOME"
  | .LEFT => "LEFT"
  | .RIGHT => "RIGHT"
  | .UP => "UP"
  | .DOWN => "DOWN"
  | .PRINTSCREEN => "PRINTSCREEN"
  | .INSERT => "INSERT"
  | .CLEAR => "CLEAR"
  | .DELETE => "DELETE"
  | .SCROLLLOCK => "SCROLLLOCK"
  | .HELP => "HELP"
  | .NUMLOCK => "NUMLOCK"
  | .VOLUMEMUTE => "VOLUMEMUTE"
  | .VOLUMEDOWN => "VOLUMEDOWN"
  | .VOLUMEUP => "VOLUMEUP"
  | .MEDIANEXTTRACK => "MEDIANEXTTRACK"
  | .MEDIAPREVIOUSTRACK => "MEDIAPREVIOUSTRACK"
  | .MEDIASTOP => "MEDIASTOP"
  | .MEDIAPLAYPAUSE => "MEDIAPLAYPAUSE"
  | .LAUNCHMAIL => "LAUNCHMAIL"
  | .F1 => "F1"
  | .F2 => "F2"
  | .F3 => "F3"
  | .F4 => "F4"
  | .F5 => "F5"
  | .F6 => "F6"
  | .F7 => "F7"
  | .F8 => "F8"
  | .F9 => "F9"
  | .F10 => "F10"
  | .F11 => "F11"
  | .F12 => "F12"
  | .NUMADD => "NUMADD"
  | .NUMSUB => "NUMSUB"
  | .NUMMULT => "NUMMULT"
  | .NUMDIV => "NUMDIV"
  | .NUMDEC => "NUMDEC"
  | .KEY_0 => "KEY_0"
  | .KEY_1 => "KEY_1"
  | .KEY_2 => "KEY_2"
  | .KEY_3 => "KEY_3"
  | .KEY_4 => "KEY_4"
  | .KEY_5 => "KEY_5"
  | .KEY_6 => "KEY_6"
  | .KEY_7 => "KEY_7"
  | .KEY_8 => "KEY_8"
  | .KEY_9 => "KEY_9"
  | .A => "A"
  | .B => "B"
  | .C => "C"
  | .D => "D"
  | .E => "E"
  | .F => "F"
  | .G => "G"
  | .H => "H"
  | .I => "I"
  | .J => "J"
  | .K => "K"
  | .L => "L"
  | .M => "M"
  | .N => "N"
  | .O => "O"
  | .P => "P"
  | .Q => "Q"
  | .R => "R"
  | .S => "S"
  | .T => "T"
  | .U => "U"
  | .V => "V"
  | .W => "W"
  | .X => "X"
  | .Y => "Y"
  | .Z => "Z"
  | .EQUAL => "EQUAL"
  | .MINUS => "MINUS"
  | .SINGLEQUOTE => "SINGLEQUOTE"
  | .COMMA => "COMMA"
  | .PERIOD => "PERIOD"
  | .SEMICOLON => "SEMICOLON"
  | .SLASH => "SLASH"
  | .OPENQUOTE => "OPENQUOTE"
  | .OPENBRACKET => "OPENBRACKET"
  | .BACKSLASH => "BACKSLASH"
  | .CLOSEBRACKET => "CLOSEBRACKET"

set_option maxHeartbeats 1000000 in
def Key.all : List Key :=
  [Key.BACKSPACE, Key.TAB, Key.ENTER, Key.CAPSLOCK, Key.ESCAPE, Key.SPACE,
   Key.PAGEUP, Key.PAGEDOWN, Key.END, Key.HOME, Key.LEFT, Key.RIGHT, Key.UP,
   Key.DOWN, Key.PRINTSCREEN, Key.INSERT, Key.CLEAR, Key.DELETE,
   Key.SCROLLLOCK, Key.HELP, Key.NUMLOCK, Key.VOLUMEMUTE, Key.VOLUMEDOWN,
   Key.VOLUMEUP, Key.MEDIANEXTTRACK, Key.MEDIAPREVIOUSTRACK, Key.MEDIASTOP,
   Key.MEDIAPLAYPAUSE, Key.LAUNCHMAIL, Key.F1, Key.F2, Key.F3, Key.F4,
   Key.F5, Key.F6, Key.F7, Key.F8, Key.F9, Key.F10, Key.F11, Key.F12,
   Key.NUMADD, Key.NUMSUB, Key.NUMMULT, Key.NUMDIV, Key.NUMDEC, Key.KEY_0,
   Key.KEY_1, Key.KEY_2, Key.KEY_3, Key.KEY_4, Key.KEY_5, Key.KEY_6,
   Key.KEY_7, Key.KEY_8, Key.KEY_9, Key.A, Key.B, Key.C, Key.D, Key.E,
   Key.F, Key.G, Key.H, Key.I, Key.J, Key.K, Key.L, Key.M, Key.N, Key.O,
   Key.P, Key.Q, Key.R, Key.S, Key.T, Key.U, Key.V, Key.W, Key.X, Key.Y,
   Key.Z, Key.EQUAL, Key.MINUS, Key.SINGLEQUOTE, Key.COMMA, Key.PERIOD,
   Key.SEMICOLON, Key.SLASH, Key.OPENQUOTE, Key.OPENBRACKET, Key.BACKSLASH,
   Key.CLOSEBRACKET]

/-- `Key::from_str` (strum `EnumString`): exact variant-name lookup. -/
def Key.fromStr (t : List Char) : Option Key :=
  List.find? (fun k => decide ((Key.name k).data = t)) Key.all

/-- The `Hotkey` struct. `derive(PartialEq, Hash, Eq)` on two `Vec` fields
means equality is structural equality of the two ordered lists; Lean's
structure equality mirrors that exactly. -/
structure Hotkey where
  modifiers : List Modifier
  keys : List Key
deriving DecidableEq

/-- `Hotkey::modifiers_as_flag`: OR-fold of the modifier discriminants. -/
def Hotkey.modifiers_as_flag (h : Hotkey) : Nat :=
  h.modifiers.foldl (fun acc x => acc ||| Modifier.code x) 0

/-- `Hotkey::keys_as_flag`: OR-fold of the key discriminants. -/
def Hotkey.keys_as_flag (h : Hotkey) : Nat :=
  h.keys.foldl (fun acc x => acc ||| Key.code x) 0

instance {ε α : Type} [DecidableEq ε] [DecidableEq α] : DecidableEq (Except ε α) :=
  fun x y =>
    match x, y with
    | .ok a, .ok b =>
      if h : a = b then isTrue (h ▸ rfl) else isFalse fun hh => h (Except.ok.inj hh)
    | .error a, .error b =>
      if h : a = b then isTrue (h ▸ rfl) else isFalse fun hh => h (Except.error.inj hh)
    | .ok _, .error _ => isFalse fun hh => Except.noConfusion hh
    | .error _, .ok _ => isFalse fun hh => Except.noConfusion hh

/-- The `HotkeyError` enum of `tauri-hotkey-sys` exactly as constructed and
consumed by windows.rs and lib.rs (the trait file itself is not part of the
sources, but every variant below appears at a use site in windows.rs). -/
inductive HotkeyError
  | BackendApiError (code : Nat)
  | ChannelError
  | Unknown
  | HotkeyAlreadyRegistered (modifiers : Nat) (key : Nat)
  | HotkeyNotRegistered (modifiers : Nat) (key : Nat)
deriving DecidableEq

/-- The `Error` enum of lib.rs. `System` is the `#[from] HotkeyError`
wrapper. -/
inductive Error
  | System (e : HotkeyError)
  | HotkeyAlreadyRegistered (h : Hotkey)
  | HotkeyNotRegistered (h : Hotkey)
  | InvalidHotkey (msg : String)
deriving DecidableEq

/-! ### String plumbing for the parser

`parse_hotkey` runs `hotkey_string.to_uppercase().split('+')` and then
`raw.trim()` on each piece. These are reimplemented structurally over
`List Char`; on ASCII input they agree with the Rust originals. -/

/-- `str::to_uppercase`, per character (ASCII-faithful). -/
def upperChars (cs : List Char) : List Char :=
  cs.map Char.toUpper

/-- `str::split('+')`: splits on every `'+'`, keeping empty pieces (so
`"".split('+')` is `[""]` and `"a++b"` gives an empty middle piece). -/
def splitPlus : List Char → List (List Char)
  | [] => [[]]
  | c :: cs =>
    match splitPlus cs with
    | [] => if c = '+' then [[], []] else [[c]]
    | t :: ts => if c = '+' then [] :: t :: ts else (c :: t) :: ts

/-- `str::trim` (whitespace from both ends). -/
def trimChars (cs : List Char) : List Char :=
  ((cs.dropWhile Char.isWhitespace).reverse.dropWhile Char.isWhitespace).reverse

/-- Numeric value of an all-digit token. -/
def digitsToNat (cs : List Char) : Nat :=
  cs.foldl (fun n c => n * 10 + (c.toNat - 48)) 0

/-- `token.parse::<usize>().is_ok()`: nonempty, all ASCII digits, and within
the 64-bit `usize` range (overflow makes `parse` fail). -/
def isNumericTok (t : List Char) : Bool :=
  !t.isEmpty && t.all Char.isDigit && decide (digitsToNat t < 2 ^ 64)

/-- The "shift conversions" table of `parse_hotkey`: shifted symbol tokens
(and `"PLUS"`) to their base key. A hit also sets the `shifted` flag. -/
def shiftKey : List Char → Option Key
  | [')'] => some .KEY_0
  | ['!'] => some .KEY_1
  | ['@'] => some .KEY_2
  | ['#'] => some .KEY_3
  | ['$'] => some .KEY_4
  | ['%'] => some .KEY_5
  | ['^'] => some .KEY_6
  | ['&'] => some .KEY_7
  | ['*'] => some .KEY_8
  | ['('] => some .KEY_9
  | [':'] => some .SEMICOLON
  | ['<'] => some .COMMA
  | ['>'] => some .PERIOD
  | ['_'] => some .MINUS
  | ['?'] => some .SLASH
  | ['~'] => some .OPENQUOTE
  | ['\x7b'] => some .OPENBRACKET
  | ['|'] => some .BACKSLASH
  | ['\x7d'] => some .CLOSEBRACKET
  | ['+'] => some .EQUAL
  | ['P', 'L', 'U', 'S'] => some .EQUAL
  | ['"'] => some .SINGLEQUOTE
  | _ => none

/-- The "aliases" table of `parse_hotkey`: plain punctuation (and `RETURN`)
that maps directly to a key without implying Shift. -/
def aliasKey : List Char → Option Key
  | ['R', 'E', 'T', 'U', 'R', 'N'] => some .ENTER
  | ['='] => some .EQUAL
  | ['-'] => some .MINUS
  | ['\''] => some .SINGLEQUOTE
  | [','] => some .COMMA
  | ['.'] => some .PERIOD
  | [';'] => some .SEMICOLON
  | ['/'] => some .SLASH
  | ['\x60'] => some .OPENQUOTE
  | ['['] => some .OPENBRACKET
  | ['\\'] => some .BACKSLASH
  | [']'] => some .CLOSEBRACKET
  | _ => none

/-- Key resolution order of the key phase of `parse_hotkey`: shift table
(which flags Shift), then aliases, then `Key::from_str`. The `Bool` is the
implied-Shift flag. -/
def keyResolve (token : List Char) : Option (Key × Bool) :=
  match shiftKey token with
  | some k => some (k, true)
  | none =>
    match aliasKey token with
    | some k => some (k, false)
    | none => (Key.fromStr token).map (fun k => (k, false))

/-- Accumulator of the token loop in `parse_hotkey`. -/
structure ParseState where
  modifiers : List Modifier
  keys : List Key
  shifted : Bool
deriving DecidableEq

/-- The key phase of one loop iteration of `parse_hotkey`: `token` is the
(possibly `KEY_n`-rewritten) trimmed token, `raw` the original piece used in
the duplicate-key message. A resolved key already in `keys` is the
`duplicated key {raw}` error; an unresolved token is `unknown key {token}`. -/
def keyPhase (st : ParseState) (token raw : List Char) : Except Error ParseState :=
  match keyResolve token with
  | some (k, sh) =>
    let st := if sh then { st with shifted := true } else st
    if k ∈ st.keys then
      .error (.InvalidHotkey (String.mk ("duplicated key ".data ++ raw)))
    else
      .ok { st with keys := st.keys ++ [k] }
  | none => .error (.InvalidHotkey (String.mk ("unknown key ".data ++ token)))

/-- One loop iteration of `parse_hotkey` on the raw piece `raw`: trim, skip
empties, modifier aliases for a non-macOS target (`COMMAND`/`CMD`,
`CONTROL`, the `COMMANDORCONTROL` family; no `OPTION`), `Modifier::from_str`,
then the numeric `KEY_n` rewrite and the key phase. -/
def processToken (st : ParseState) (raw : List Char) : Except Error ParseState :=
  let token := trimChars raw
  if token = [] then .ok st
  else if token = "COMMAND".data ∨ token = "CMD".data then
    .ok { st with modifiers := st.modifiers ++ [.SUPER] }
  else if token = "CONTROL".data then
    .ok { st with modifiers := st.modifiers ++ [.CTRL] }
  else if token = "COMMANDORCONTROL".data ∨ token = "COMMANDORCTRL".data ∨
      token = "CMDORCTRL".data ∨ token = "CMDORCONTROL".data then
    .ok { st with modifiers := st.modifiers ++ [.CTRL] }
  else
    match Modifier.fromStr token with
    | some m => .ok { st with modifiers := st.modifiers ++ [m] }
    | none =>
      keyPhase st (if isNumericTok token then "KEY_".data ++ token else token) raw

/-- The token list `hotkey_string.to_uppercase().split('+')`. -/
def tokenize (s : String) : List (List Char) :=
  splitPlus (upperChars s.data)

/-- The whole token loop of `parse_hotkey`. -/
def parseFold (s : String) : Except Error ParseState :=
  (tokenize s).foldlM processToken ⟨[], [], false⟩

/-- `parse_hotkey`: run the token loop, append `SHIFT` once if a shifted
symbol occurred and `SHIFT` is not already present, and reject an empty key
list. -/
def parse_hotkey (s : String) : Except Error Hotkey :=
  match parseFold s with
  | .error e => .error e
  | .ok st =>
    let modifiers :=
      if st.shifted = true ∧ Modifier.SHIFT ∉ st.modifiers then
        st.modifiers ++ [Modifier.SHIFT]
      else st.modifiers
    if st.keys = [] then .error (.InvalidHotkey "hotkey has no key specified")
    else .ok ⟨modifiers, st.keys⟩

/-- Rust `Vec<String>::join(sep)`. -/
def joinWith (sep : String) : List String → String
  | [] => ""
  | [x] => x
  | x :: xs => x ++ sep ++ joinWith sep xs

/-- `impl fmt::Display for Hotkey`: modifiers folded with `+` between them,
then (when modifiers are nonempty) a `+` and the keys — which the source
joins with `"\""`, i.e. a double-quote character, not `"+"`. -/
def Hotkey.display (h : Hotkey) : String :=
  let modifier_string :=
    h.modifiers.foldl
      (fun all one => if all = "" then Modifier.name one
        else all ++ "+" ++ Modifier.name one) ""
  let keys_string := joinWith "\"" (h.keys.map Key.name)
  if modifier_string = "" then keys_string
  else modifier_string ++ "+" ++ keys_string

/-! ### The listener, registry and manager state machine

lib.rs keeps three pieces of mutable state: the process-wide
`GLOBAL_LISTENER` (the Windows `Listener` of windows.rs), the process-wide
`GLOBAL_HOTKEY_MAP` from `Hotkey` to an owner table `HashMap<usize, callback>`,
and per-`HotkeyManager` an id (from `ID_COUNTER`) plus the
`registered_hotkeys` list. Callbacks are abstracted as numeric tags (their
code is never inspected by the operations the claims are about). Hash maps
are embedded as association lists whose operations insert fresh keys at the
end; actual OS registration state is tracked as a further list, `os`, so
that divergence between the registry and the operating system is
observable. Every native `RegisterHotKey` / `UnregisterHotKey` outcome is an
oracle parameter `nres : Option Nat` (`none` = the native call succeeds,
`some code` = it fails and `GetLastError` returns `code`). -/

/-- `ListenerHotkey { modifiers, key }` of tauri-hotkey-sys, built by lib.rs
as `ListenerHotkey::new(h.modifiers_as_flag(), h.keys_as_flag())`. -/
structure ListenerHotkey where
  modifiers : Nat
  key : Nat
deriving DecidableEq

/-- The flag encoding of a hotkey that lib.rs hands to the listener. -/
def encode (h : Hotkey) : ListenerHotkey :=
  ⟨h.modifiers_as_flag, h.keys_as_flag⟩

/-- The `Listener` of windows.rs: `last_id` and the `handlers` map
`ListenerId → (ListenerHotkey, callback)` (callback elided). -/
structure Listener where
  last_id : Nat
  handlers : List (Nat × ListenerHotkey)
deriving DecidableEq

/-- `Listener::new()`: fresh id counter, no handlers. -/
def Listener.new : Listener := ⟨0, []⟩

/-- The flags currently stored in the handlers map. -/
def handlerFlags (l : Listener) : List ListenerHotkey :=
  l.handlers.map Prod.snd

/-- First handler id whose stored hotkey equals `hk` (iteration of
`handlers` in windows.rs `unregister_hotkey`). -/
def findHandlerId (hs : List (Nat × ListenerHotkey)) (hk : ListenerHotkey) : Option Nat :=
  (List.find? (fun p => decide (p.2 = hk)) hs).map Prod.fst

/-- Remove the handler with the given id (`HashMap::remove(&found_id)`). -/
def eraseHandler (hs : List (Nat × ListenerHotkey)) (id : Nat) : List (Nat × ListenerHotkey) :=
  hs.eraseP (fun p => decide (p.1 = id))

/-- First-occurrence removal of a flag from the OS-bound set. -/
def eraseFlag (os : List ListenerHotkey) (hk : ListenerHotkey) : List ListenerHotkey :=
  os.eraseP (fun f => decide (f = hk))

/-- `Listener::register_hotkey` (windows.rs): error if the flags are already
in `handlers`; otherwise bump `last_id`, issue the native `RegisterHotKey`
(outcome `nres`), and only on native success store the new handler. The OS
set gains the binding exactly when the native call succeeds. -/
def Listener.register_hotkey (l : Listener) (os : List ListenerHotkey)
    (hk : ListenerHotkey) (nres : Option Nat) :
    Except HotkeyError Unit × Listener × List ListenerHotkey :=
  if l.handlers.any (fun p => decide (p.2 = hk)) then
    (.error (.HotkeyAlreadyRegistered hk.modifiers hk.key), l, os)
  else
    let id := l.last_id + 1
    match nres with
    | some code => (.error (.BackendApiError code), ⟨id, l.handlers⟩, os)
    | none =>
      (.ok (), ⟨id, l.handlers ++ [(id, hk)]⟩,
        if hk ∈ os then os else os ++ [hk])

/-- `Listener::unregister_hotkey` (windows.rs): find the handler id for the
flags (error if absent, no native call); issue the native `UnregisterHotKey`
(outcome `nres`); remove the handler from the map regardless of the native
outcome (the source removes it before reading the result); the OS set loses
the binding only when the native call succeeds. -/
def Listener.unregister_hotkey (l : Listener) (os : List ListenerHotkey)
    (hk : ListenerHotkey) (nres : Option Nat) :
    Except HotkeyError Unit × Listener × List ListenerHotkey :=
  match findHandlerId l.handlers hk with
  | none => (.error (.HotkeyNotRegistered hk.modifiers hk.key), l, os)
  | some id =>
    let l' : Listener := ⟨l.last_id, eraseHandler l.handlers id⟩
    match nres with
    | none => (.ok (), l', eraseFlag os hk)
    | some code => (.error (.BackendApiError code), l', os)

/-- Owner table of one registry entry: `HashMap<usize, callback>`, with the
callback abstracted to its numeric tag. -/
abbrev OwnerTable := List (Nat × Nat)

/-- `HashMap::insert(id, cb)`: replace an existing binding of `id`, else
append the fresh binding. -/
def tableInsert (t : OwnerTable) (id cb : Nat) : OwnerTable :=
  if t.any (fun p => decide (p.1 = id)) then
    t.map (fun p => if p.1 = id then (id, cb) else p)
  else t ++ [(id, cb)]

/-- `HashMap::remove(&id)`: drop the binding of `id`. -/
def tableEraseId (t : OwnerTable) (id : Nat) : OwnerTable :=
  t.filter (fun p => decide (p.1 ≠ id))

/-- `GLOBAL_HOTKEY_MAP`: `Hotkey → OwnerTable` as an association list. -/
abbrev Registry := List (Hotkey × OwnerTable)

/-- Registry lookup by hotkey. -/
def lookupTable : Registry → Hotkey → Option OwnerTable
  | [], _ => none
  | e :: r, h => if e.1 = h then some e.2 else lookupTable r h

/-- Replace the owner table stored for `h` (the entry must exist; other
entries are untouched). -/
def setTable : Registry → Hotkey → OwnerTable → Registry
  | [], _, _ => []
  | e :: r, h, t => if e.1 = h then (h, t) :: r else e :: setTable r h t

/-- `Entry::remove_entry`: drop the registry entry of `h`. -/
def removeEntry : Registry → Hotkey → Registry
  | [], _ => []
  | e :: r, h => if e.1 = h then r else e :: removeEntry r h

/-- The flag encodings of all registry entries, in entry order. -/
def registryFlags (r : Registry) : List ListenerHotkey :=
  r.map (fun e => encode e.1)

/-- A `HotkeyManager`: its owned-hotkey list and its `ID_COUNTER` id. -/
structure Manager where
  registered_hotkeys : List Hotkey
  id : Nat
deriving DecidableEq

/-- `HotkeyManager::is_registered`: membership in this manager's own list
only. -/
def Manager.is_registered (m : Manager) (h : Hotkey) : Bool :=
  decide (h ∈ m.registered_hotkeys)

/-- The whole process state: global listener, actual OS bindings, global
registry, the live managers (in creation order) and the `ID_COUNTER`
value. -/
structure Sys where
  listener : Listener
  os : List ListenerHotkey
  registry : Registry
  managers : List Manager
  next_id : Nat
deriving DecidableEq

/-- Process start: lazily-initialized empty listener and registry, no
managers, `ID_COUNTER = 0`. -/
def Sys.start : Sys := ⟨Listener.new, [], [], [], 0⟩

/-- Apply `f` to the manager at position `i` (mutation of `self` through
one element of the conceptual list of live managers). -/
def updateManager : List Manager → Nat → (Manager → Manager) → List Manager
  | [], _, _ => []
  | m :: ms, 0, f => f m :: ms
  | m :: ms, j + 1, f => m :: updateManager ms j f

/-- `HotkeyManager::new()`: a fresh manager with the next counter id. -/
def Sys.newManager (s : Sys) : Sys :=
  { s with managers := s.managers ++ [⟨[], s.next_id⟩], next_id := s.next_id + 1 }

/-- `HotkeyManager::register` for the manager at position `i` (lib.rs):
reject a hotkey already in the local list; if the registry has an entry,
insert the callback into its owner table (no native call); otherwise ask the
listener to register the encoded flags — on listener failure propagate the
error with no registry change, on success create the singleton owner table.
On success append the hotkey to the local list. -/
def Sys.register (s : Sys) (i : Nat) (h : Hotkey) (cb : Nat) (nres : Option Nat) :
    Except Error Unit × Sys :=
  match s.managers[i]? with
  | none => (.ok (), s)
  | some m =>
    if h ∈ m.registered_hotkeys then (.error (.HotkeyAlreadyRegistered h), s)
    else
      match lookupTable s.registry h with
      | some t =>
        (.ok (), { s with
          registry := setTable s.registry h (tableInsert t m.id cb),
          managers := updateManager s.managers i
            (fun mg => { mg with registered_hotkeys := mg.registered_hotkeys ++ [h] }) })
      | none =>
        match s.listener.register_hotkey s.os (encode h) nres with
        | (.error e, l', os') => (.error (.System e), { s with listener := l', os := os' })
        | (.ok _, l', os') =>
          (.ok (), { s with
            listener := l', os := os',
            registry := s.registry ++ [(h, [(m.id, cb)])],
            managers := updateManager s.managers i
              (fun mg => { mg with registered_hotkeys := mg.registered_hotkeys ++ [h] }) })

/-- `HotkeyManager::unregister` for the manager at position `i` (lib.rs):
error if the hotkey is not in the local list; otherwise remove it locally
first, then remove this owner from the registry entry's table — a missing
entry or missing owner is the source's `panic!("should never be vacant")`,
modeled as `none`. If the table became empty, remove the registry entry and
then ask the listener to unregister natively, propagating a native failure
after the entry is already gone. -/
def Sys.unregister (s : Sys) (i : Nat) (h : Hotkey) (nres : Option Nat) :
    Option (Except Error Unit × Sys) :=
  match s.managers[i]? with
  | none => some (.ok (), s)
  | some m =>
    if h ∈ m.registered_hotkeys then
      let s := { s with
        managers := updateManager s.managers i
          (fun mg => { mg with registered_hotkeys := mg.registered_hotkeys.erase h }) }
      match lookupTable s.registry h with
      | none => none
      | some t =>
        if t.any (fun p => decide (p.1 = m.id)) then
          let t' := tableEraseId t m.id
          if t' = [] then
            let s := { s with registry := removeEntry s.registry h }
            match s.listener.unregister_hotkey s.os (encode h) nres with
            | (.error e, l', os') => some (.error (.System e), { s with listener := l', os := os' })
            | (.ok _, l', os') => some (.ok (), { s with listener := l', os := os' })
          else
            some (.ok (), { s with registry := setTable s.registry h t' })
        else none
    else some (.error (.HotkeyNotRegistered h), s)

/-- The loop body of `HotkeyManager::unregister_all`: iterate over a clone
of the owned list, overwriting `result` with each `unregister` outcome; one
oracle entry is consumed per iteration (missing entries default to native
success). -/
def unregisterLoop (s : Sys) (i : Nat) (hks : List Hotkey)
    (nres : List (Option Nat)) (acc : Except Error Unit) :
    Option (Except Error Unit × Sys) :=
  match hks with
  | [] => some (acc, s)
  | h :: rest =>
    match Sys.unregister s i h (nres.headD none) with
    | none => none
    | some (r, s') => unregisterLoop s' i rest nres.tail r

/-- `HotkeyManager::unregister_all`: `let mut result = Ok(()); for hotkey in
self.registered_hotkeys.clone() { result = self.unregister(hotkey); }
result`. -/
def Sys.unregister_all (s : Sys) (i : Nat) (nres : List (Option Nat)) :
    Option (Except Error Unit × Sys) :=
  match s.managers[i]? with
  | none => some (.ok (), s)
  | some m => unregisterLoop s i m.registered_hotkeys nres (.ok ())

/-- Same iteration as `unregisterLoop` but collecting every individual
`unregister` result, for reasoning about which of them `unregister_all`
reports. -/
def unregisterResults (s : Sys) (i : Nat) (hks : List Hotkey)
    (nres : List (Option Nat)) :
    Option (List (Except Error Unit) × Sys) :=
  match hks with
  | [] => some ([], s)
  | h :: rest =>
    match Sys.unregister s i h (nres.headD none) with
    | none => none
    | some (r, s') => (unregisterResults s' i rest nres.tail).map (fun p => (r :: p.1, p.2))

/-- One external event: manager construction or a manager API call, with the
native-call oracle outcomes it may consume. -/
inductive Cmd
  | newManager
  | register (i : Nat) (h : Hotkey) (cb : Nat) (nres : Option Nat)
  | unregister (i : Nat) (h : Hotkey) (nres : Option Nat)
  | unregisterAll (i : Nat) (nres : List (Option Nat))

/-- Execute one command (results discarded; `none` on a source `panic!`). -/
def stepCmd (s : Sys) : Cmd → Option Sys
  | .newManager => some s.newManager
  | .register i h cb nres => some (Sys.register s i h cb nres).2
  | .unregister i h nres => (Sys.unregister s i h nres).map Prod.snd
  | .unregisterAll i nres => (Sys.unregister_all s i nres).map Prod.snd

/-- Execute a command sequence from a state. -/
def runCmds : Sys → List Cmd → Option Sys
  | s, [] => some s
  | s, c :: cs => (stepCmd s c).bind (fun s' => runCmds s' cs)

/-! ### Association-list and state-machine helper lemmas -/

theorem lookupTable_append_of_some {r : Registry} {h : Hotkey} {t : OwnerTable}
    (h1 : lookupTable r h = some t) (r2 : Registry) :
    lookupTable (r ++ r2) h = some t := by
  induction r with
  | nil => simp [lookupTable] at h1
  | cons e r ih =>
    by_cases he : e.1 = h
    · simpa [lookupTable, he] using h1
    · rw [List.cons_append]
      simp only [lookupTable, he, if_false] at h1 ⊢
      exact ih h1

theorem lookupTable_append_self {r : Registry} {h : Hotkey}
    (h1 : lookupTable r h = none) (t : OwnerTable) :
    lookupTable (r ++ [(h, t)]) h = some t := by
  induction r with
  | nil => simp [lookupTable]
  | cons e r ih =>
    by_cases he : e.1 = h
    · simp [lookupTable, he] at h1
    · simp only [lookupTable, he, if_false] at h1
      simpa [lookupTable, he] using ih h1

theorem registryFlags_append (r1 r2 : Registry) :
    registryFlags (r1 ++ r2) = registryFlags r1 ++ registryFlags r2 := by
  simp [registryFlags]

theorem registryFlags_setTable (r : Registry) (h : Hotkey) (t : OwnerTable) :
    registryFlags (setTable r h t) = registryFlags r := by
  induction r with
  | nil => rfl
  | cons e r ih =>
    by_cases he : e.1 = h
    · simp [setTable, registryFlags, he]
    · simp only [setTable, he, if_false]
      simpa [registryFlags] using ih

theorem lookupTable_setTable_self {r : Registry} {h : Hotkey} {t0 : OwnerTable}
    (h1 : lookupTable r h = some t0) (t : OwnerTable) :
    lookupTable (setTable r h t) h = some t := by
  induction r with
  | nil => simp [lookupTable] at h1
  | cons e r ih =>
    by_cases he : e.1 = h
    · simp [setTable, lookupTable, he]
    · simp only [lookupTable, he, if_false] at h1
      simp only [setTable, he, if_false, lookupTable]
      exact ih h1

theorem lookupTable_setTable_ne {r : Registry} {h h' : Hotkey} (hne : h' ≠ h)
    (t : OwnerTable) : lookupTable (setTable r h t) h' = lookupTable r h' := by
  induction r with
  | nil => rfl
  | cons e r ih =>
    by_cases he : e.1 = h
    · have hh' : ¬(h = h') := fun hh => hne hh.symm
      have he' : ¬(e.1 = h') := fun hh => hne (hh.symm.trans he)
      simp only [setTable, he, if_true, lookupTable, hh', if_false, he']
    · simp only [setTable, he, if_false, lookupTable]
      by_cases he' : e.1 = h'
      · simp [he']
      · simp only [he', if_false]
        exact ih

theorem lookupTable_removeEntry_ne {r : Registry} {h h' : Hotkey} (hne : h' ≠ h) :
    lookupTable (removeEntry r h) h' = lookupTable r h' := by
  induction r with
  | nil => rfl
  | cons e r ih =>
    by_cases he : e.1 = h
    · have hh' : ¬(h = h') := fun hh => hne hh.symm
      simp only [removeEntry, he, if_true, lookupTable, hh', if_false]
    · simp only [removeEntry, he, if_false, lookupTable]
      by_cases he' : e.1 = h'
      · simp [he']
      · simp only [he', if_false]
        exact ih

theorem encode_mem_registryFlags {r : Registry} {h : Hotkey} {t : OwnerTable}
    (h1 : lookupTable r h = some t) : encode h ∈ registryFlags r := by
  induction r with
  | nil => simp [lookupTable] at h1
  | cons e r ih =>
    by_cases he : e.1 = h
    · simp [registryFlags, he]
    · simp only [lookupTable, he, if_false] at h1
      simp only [registryFlags, List.map_cons, List.mem_cons]
      exact Or.inr (ih h1)

theorem eraseFlag_cons_self (os : List ListenerHotkey) (hk : ListenerHotkey) :
    eraseFlag (hk :: os) hk = os := by
  simp [eraseFlag, List.eraseP_cons]

theorem eraseFlag_cons_ne {f hk : ListenerHotkey} (hne : f ≠ hk)
    (os : List ListenerHotkey) : eraseFlag (f :: os) hk = f :: eraseFlag os hk := by
  simp [eraseFlag, List.eraseP_cons, hne]

theorem nodup_eraseFlag {os : List ListenerHotkey} (hk : ListenerHotkey)
    (h : os.Nodup) : (eraseFlag os hk).Nodup :=
  (List.eraseP_sublist os).nodup h

theorem registryFlags_cons (e : Hotkey × OwnerTable) (r : Registry) :
    registryFlags (e :: r) = encode e.1 :: registryFlags r := rfl

theorem registryFlags_removeEntry {r : Registry} {h : Hotkey} {t : OwnerTable}
    (hnd : (registryFlags r).Nodup) (h1 : lookupTable r h = some t) :
    registryFlags (removeEntry r h) = eraseFlag (registryFlags r) (encode h) := by
  induction r with
  | nil => simp [lookupTable] at h1
  | cons e r ih =>
    rw [registryFlags_cons] at hnd
    by_cases he : e.1 = h
    · simp only [removeEntry, he, if_true, registryFlags_cons, he, eraseFlag_cons_self]
    · simp only [lookupTable, he, if_false] at h1
      have hmem : encode h ∈ registryFlags r := encode_mem_registryFlags h1
      have hne : encode e.1 ≠ encode h := by
        intro hc
        exact (List.nodup_cons.mp hnd).1 (hc ▸ hmem)
      simp only [removeEntry, he, if_false, registryFlags_cons]
      rw [eraseFlag_cons_ne hne]
      exact congrArg (encode e.1 :: ·) (ih (List.nodup_cons.mp hnd).2 h1)

theorem mem_removeEntry {r : Registry} {h : Hotkey} {e : Hotkey × OwnerTable}
    (hm : e ∈ removeEntry r h) : e ∈ r := by
  induction r with
  | nil => simp [removeEntry] at hm
  | cons e' r ih =>
    by_cases he : e'.1 = h
    · simp only [removeEntry, he, if_true] at hm
      exact List.mem_cons_of_mem _ hm
    · simp only [removeEntry, he, if_false, List.mem_cons] at hm
      rcases hm with hm | hm
      · exact hm ▸ List.mem_cons_self _ _
      · exact List.mem_cons_of_mem _ (ih hm)

theorem mem_setTable {r : Registry} {h : Hotkey} {t : OwnerTable}
    {e : Hotkey × OwnerTable} (hm : e ∈ setTable r h t) :
    e ∈ r ∨ e = (h, t) := by
  induction r with
  | nil => simp [setTable] at hm
  | cons e' r ih =>
    by_cases he : e'.1 = h
    · simp only [setTable, he, if_true, List.mem_cons] at hm
      rcases hm with hm | hm
      · exact Or.inr hm
      · exact Or.inl (List.mem_cons_of_mem _ hm)
    · simp only [setTable, he, if_false, List.mem_cons] at hm
      rcases hm with hm | hm
      · exact Or.inl (hm ▸ List.mem_cons_self _ _)
      · rcases ih hm with hh | hh
        · exact Or.inl (List.mem_cons_of_mem _ hh)
        · exact Or.inr hh

theorem tableInsert_ne_nil (t : OwnerTable) (id cb : Nat) :
    tableInsert t id cb ≠ [] := by
  unfold tableInsert
  by_cases hc : t.any (fun p => decide (p.1 = id)) = true
  · simp only [hc, if_true]
    intro hnil
    have ht : t = [] := List.map_eq_nil_iff.mp hnil
    rw [ht] at hc
    simp at hc
  · simp only [hc, if_false]
    simp

theorem map_fst_tableInsert_of_any (t : OwnerTable) (id cb : Nat)
    (hc : t.any (fun p => decide (p.1 = id)) = true) :
    (tableInsert t id cb).map Prod.fst = t.map Prod.fst := by
  simp only [tableInsert, hc, if_true, List.map_map]
  apply List.map_congr_left
  intro p _
  by_cases hp : p.1 = id
  · show (if p.1 = id then (id, cb) else p).1 = p.1
    rw [if_pos hp, hp]
  · show (if p.1 = id then (id, cb) else p).1 = p.1
    rw [if_neg hp]

theorem nodup_tableInsert {t : OwnerTable} (id cb : Nat)
    (h : (t.map Prod.fst).Nodup) : ((tableInsert t id cb).map Prod.fst).Nodup := by
  by_cases hc : t.any (fun p => decide (p.1 = id)) = true
  · rw [map_fst_tableInsert_of_any t id cb hc]
    exact h
  · have hid : id ∉ t.map Prod.fst := by
      intro hmem
      rcases List.mem_map.mp hmem with ⟨p, hp, hpid⟩
      exact hc (List.any_eq_true.mpr ⟨p, hp, by simp [hpid]⟩)
    unfold tableInsert
    rw [if_neg hc]
    simp only [List.map_append, List.map_cons, List.map_nil]
    exact List.Nodup.append h (List.nodup_singleton id)
      (by simpa [List.disjoint_singleton] using hid)

theorem mem_tableInsert_self (t : OwnerTable) (id cb : Nat) :
    (id, cb) ∈ tableInsert t id cb := by
  by_cases hc : t.any (fun p => decide (p.1 = id)) = true
  · simp only [tableInsert, hc, if_true]
    rcases List.any_eq_true.mp hc with ⟨p, hp, hpid⟩
    refine List.mem_map.mpr ⟨p, hp, ?_⟩
    have : p.1 = id := of_decide_eq_true hpid
    simp [this]
  · simp [tableInsert, hc]

theorem mem_tableInsert_of_ne {t : OwnerTable} {p : Nat × Nat} (id cb : Nat)
    (hp : p ∈ t) (hne : p.1 ≠ id) : p ∈ tableInsert t id cb := by
  by_cases hc : t.any (fun q => decide (q.1 = id)) = true
  · simp only [tableInsert, hc, if_true]
    refine List.mem_map.mpr ⟨p, hp, ?_⟩
    simp [hne]
  · simp [tableInsert, hc, hp]

theorem tableEraseId_eq_nil {t : OwnerTable} {id : Nat}
    (h : tableEraseId t id = []) : ∀ p ∈ t, p.1 = id := by
  intro p hp
  have := List.filter_eq_nil_iff.mp h p hp
  simpa using this

theorem mem_tableEraseId_of_ne {t : OwnerTable} {p : Nat × Nat} (id : Nat)
    (hp : p ∈ t) (hne : p.1 ≠ id) : p ∈ tableEraseId t id :=
  List.mem_filter.mpr ⟨hp, by simpa using hne⟩

theorem mem_of_mem_tableEraseId {t : OwnerTable} {p : Nat × Nat} {id : Nat}
    (hp : p ∈ tableEraseId t id) : p ∈ t :=
  (List.mem_filter.mp hp).1

theorem nodup_tableEraseId {t : OwnerTable} (id : Nat)
    (h : (t.map Prod.fst).Nodup) : ((tableEraseId t id).map Prod.fst).Nodup :=
  ((List.filter_sublist t).map Prod.fst).nodup h

theorem updateManager_getElem (ms : List Manager) (i : Nat) (f : Manager → Manager)
    (j : Nat) : (updateManager ms i f)[j]? =
      if j = i then ms[j]?.map f else ms[j]? := by
  induction ms generalizing i j with
  | nil => simp [updateManager]
  | cons m ms ih =>
    cases i with
    | zero =>
      cases j with
      | zero => simp [updateManager]
      | succ j => simp [updateManager]
    | succ i =>
      cases j with
      | zero => simp [updateManager]
      | succ j =>
        simp only [updateManager, List.getElem?_cons_succ, ih i j]
        rcases eq_or_ne j i with hji | hji
        · simp [hji]
        · rw [if_neg hji, if_neg (by omega)]

theorem getElem_append_singleton (ms : List Manager) (x : Manager) (j : Nat) :
    (ms ++ [x])[j]? = if j = ms.length then some x else ms[j]? := by
  induction ms generalizing j with
  | nil => cases j <;> simp
  | cons m ms ih =>
    cases j with
    | zero => simp
    | succ j =>
      simp only [List.cons_append, List.getElem?_cons_succ, ih j, List.length_cons]
      rcases eq_or_ne j ms.length with hj | hj
      · simp [hj]
      · rw [if_neg hj, if_neg (by omega)]

theorem findHandlerId_isSome {hs : List (Nat × ListenerHotkey)} {hk : ListenerHotkey}
    (h : hk ∈ hs.map Prod.snd) : ∃ id, findHandlerId hs hk = some id := by
  induction hs with
  | nil => simp at h
  | cons p rest ih =>
    rw [List.map_cons] at h
    by_cases hp : p.2 = hk
    · refine ⟨p.1, ?_⟩
      unfold findHandlerId
      rw [List.find?_cons_of_pos _ (by simpa using hp)]
      rfl
    · rcases List.mem_cons.mp h with hc | hc
      · exact absurd hc.symm hp
      · rcases ih hc with ⟨id, hid⟩
        refine ⟨id, ?_⟩
        unfold findHandlerId at hid ⊢
        rw [List.find?_cons_of_neg _ (by simpa using hp)]
        exact hid

theorem findHandlerId_spec {hs : List (Nat × ListenerHotkey)} {hk : ListenerHotkey}
    {id : Nat} (h : findHandlerId hs hk = some id) :
    ∃ p ∈ hs, p.1 = id ∧ p.2 = hk := by
  unfold findHandlerId at h
  cases hf : List.find? (fun p => decide (p.2 = hk)) hs with
  | none => rw [hf] at h; simp at h
  | some p =>
    rw [hf] at h
    refine ⟨p, List.mem_of_find?_eq_some hf, ?_,
      of_decide_eq_true (by simpa using List.find?_some hf)⟩
    simpa using h

theorem map_snd_eraseHandler {hs : List (Nat × ListenerHotkey)} {hk : ListenerHotkey}
    {id : Nat} (hnd : (hs.map Prod.fst).Nodup)
    (hfind : findHandlerId hs hk = some id) :
    (eraseHandler hs id).map Prod.snd = eraseFlag (hs.map Prod.snd) hk := by
  induction hs with
  | nil => simp [findHandlerId] at hfind
  | cons p rest ih =>
    rw [List.map_cons] at hnd
    by_cases hp : p.2 = hk
    · have hid : p.1 = id := by
        unfold findHandlerId at hfind
        rw [List.find?_cons_of_pos _ (by simpa using hp)] at hfind
        simpa using hfind
      unfold eraseHandler
      rw [List.eraseP_cons_of_pos (by simpa using hid), List.map_cons,
        hp, eraseFlag_cons_self]
    · have hfind' : findHandlerId rest hk = some id := by
        unfold findHandlerId at hfind ⊢
        rwa [List.find?_cons_of_neg _ (by simpa using hp)] at hfind
      rcases findHandlerId_spec hfind' with ⟨q, hq, hq1, _⟩
      have hpid : p.1 ≠ id := by
        intro hc
        have hmem : p.1 ∈ rest.map Prod.fst := by
          rw [hc, ← hq1]
          exact List.mem_map.mpr ⟨q, hq, rfl⟩
        exact (List.nodup_cons.mp hnd).1 hmem
      unfold eraseHandler
      rw [List.eraseP_cons_of_neg (by simpa using hpid), List.map_cons,
        List.map_cons, eraseFlag_cons_ne hp]
      have := ih (List.nodup_cons.mp hnd).2 hfind'
      unfold eraseHandler at this
      rw [this]

theorem eraseHandler_sublist (hs : List (Nat × ListenerHotkey)) (id : Nat) :
    (eraseHandler hs id).Sublist hs :=
  List.eraseP_sublist hs

theorem mem_of_lookupTable {r : Registry} {h : Hotkey} {t : OwnerTable}
    (hl : lookupTable r h = some t) : (h, t) ∈ r := by
  induction r with
  | nil => simp [lookupTable] at hl
  | cons e r ih =>
    by_cases he : e.1 = h
    · simp only [lookupTable, he, if_true, Option.some.injEq] at hl
      have : e = (h, t) := Prod.ext he hl
      exact this ▸ List.mem_cons_self _ _
    · simp only [lookupTable, he, if_false] at hl
      exact List.mem_cons_of_mem _ (ih hl)

/-! ### Branch equations for the listener and manager operations -/

theorem register_hotkey_dup {l : Listener} {hk : ListenerHotkey}
    (os : List ListenerHotkey) (nres : Option Nat)
    (hdup : l.handlers.any (fun p => decide (p.2 = hk)) = true) :
    Listener.register_hotkey l os hk nres =
      (.error (.HotkeyAlreadyRegistered hk.modifiers hk.key), l, os) := by
  unfold Listener.register_hotkey
  rw [if_pos hdup]

theorem register_hotkey_fail {l : Listener} {hk : ListenerHotkey}
    (os : List ListenerHotkey) (code : Nat)
    (hdup : ¬l.handlers.any (fun p => decide (p.2 = hk)) = true) :
    Listener.register_hotkey l os hk (some code) =
      (.error (.BackendApiError code), ⟨l.last_id + 1, l.handlers⟩, os) := by
  unfold Listener.register_hotkey
  rw [if_neg hdup]

theorem register_hotkey_success {l : Listener} {hk : ListenerHotkey}
    (os : List ListenerHotkey)
    (hdup : ¬l.handlers.any (fun p => decide (p.2 = hk)) = true) :
    Listener.register_hotkey l os hk none =
      (.ok (), ⟨l.last_id + 1, l.handlers ++ [(l.last_id + 1, hk)]⟩,
        if hk ∈ os then os else os ++ [hk]) := by
  unfold Listener.register_hotkey
  rw [if_neg hdup]

theorem register_hotkey_error {l : Listener} {os : List ListenerHotkey}
    {hk : ListenerHotkey} {nres : Option Nat} {e : HotkeyError} {l' : Listener}
    {os' : List ListenerHotkey}
    (hr : Listener.register_hotkey l os hk nres = (.error e, l', os')) :
    l'.handlers = l.handlers ∧ os' = os ∧ l.last_id ≤ l'.last_id := by
  by_cases hdup : l.handlers.any (fun p => decide (p.2 = hk)) = true
  · rw [register_hotkey_dup os nres hdup, Prod.mk.injEq, Prod.mk.injEq] at hr
    obtain ⟨-, h2, h3⟩ := hr
    subst h2
    subst h3
    exact ⟨rfl, rfl, Nat.le_refl _⟩
  · cases nres with
    | some code =>
      rw [register_hotkey_fail os code hdup, Prod.mk.injEq, Prod.mk.injEq] at hr
      obtain ⟨-, h2, h3⟩ := hr
      subst h2
      subst h3
      exact ⟨rfl, rfl, Nat.le_succ _⟩
    | none =>
      rw [register_hotkey_success os hdup] at hr
      simp at hr

theorem register_hotkey_ok {l : Listener} {os : List ListenerHotkey}
    {hk : ListenerHotkey} {nres : Option Nat} {u : Unit} {l' : Listener}
    {os' : List ListenerHotkey}
    (hr : Listener.register_hotkey l os hk nres = (.ok u, l', os')) :
    l.handlers.any (fun p => decide (p.2 = hk)) = false ∧ nres = none ∧
      l' = ⟨l.last_id + 1, l.handlers ++ [(l.last_id + 1, hk)]⟩ ∧
      os' = (if hk ∈ os then os else os ++ [hk]) := by
  by_cases hdup : l.handlers.any (fun p => decide (p.2 = hk)) = true
  · rw [register_hotkey_dup os nres hdup] at hr
    simp at hr
  · cases nres with
    | some code =>
      rw [register_hotkey_fail os code hdup] at hr
      simp at hr
    | none =>
      rw [register_hotkey_success os hdup, Prod.mk.injEq, Prod.mk.injEq] at hr
      obtain ⟨-, h2, h3⟩ := hr
      subst h2
      subst h3
      exact ⟨Bool.eq_false_iff.mpr hdup, rfl, rfl, rfl⟩

theorem unregister_hotkey_found_err {l : Listener} {os : List ListenerHotkey}
    {hk : ListenerHotkey} {id code : Nat}
    (hf : findHandlerId l.handlers hk = some id) :
    Listener.unregister_hotkey l os hk (some code) =
      (.error (.BackendApiError code), ⟨l.last_id, eraseHandler l.handlers id⟩, os) := by
  unfold Listener.unregister_hotkey
  rw [hf]

theorem unregister_hotkey_found_ok {l : Listener} {os : List ListenerHotkey}
    {hk : ListenerHotkey} {id : Nat}
    (hf : findHandlerId l.handlers hk = some id) :
    Listener.unregister_hotkey l os hk none =
      (.ok (), ⟨l.last_id, eraseHandler l.handlers id⟩, eraseFlag os hk) := by
  unfold Listener.unregister_hotkey
  rw [hf]

theorem Sys.register_no_manager {s : Sys} {i : Nat} {h : Hotkey} {cb : Nat}
    {nres : Option Nat} (hget : s.managers[i]? = none) :
    Sys.register s i h cb nres = (.ok (), s) := by
  unfold Sys.register
  rw [hget]

theorem Sys.register_already {s : Sys} {i : Nat} {m : Manager} {h : Hotkey}
    {cb : Nat} {nres : Option Nat} (hget : s.managers[i]? = some m)
    (hreg : h ∈ m.registered_hotkeys) :
    Sys.register s i h cb nres = (.error (.HotkeyAlreadyRegistered h), s) := by
  unfold Sys.register
  rw [hget]
  simp only [hreg, if_true]

theorem Sys.register_occupied {s : Sys} {i : Nat} {m : Manager} {h : Hotkey}
    {cb : Nat} {nres : Option Nat} {t : OwnerTable}
    (hget : s.managers[i]? = some m) (hreg : h ∉ m.registered_hotkeys)
    (hlook : lookupTable s.registry h = some t) :
    Sys.register s i h cb nres = (.ok (), { s with
      registry := setTable s.registry h (tableInsert t m.id cb),
      managers := updateManager s.managers i
        (fun mg => { mg with registered_hotkeys := mg.registered_hotkeys ++ [h] }) }) := by
  unfold Sys.register
  rw [hget]
  simp only [hreg, if_false, hlook]

theorem Sys.register_vacant_err {s : Sys} {i : Nat} {m : Manager} {h : Hotkey}
    {cb : Nat} {nres : Option Nat} {e : HotkeyError} {l' : Listener}
    {os' : List ListenerHotkey}
    (hget : s.managers[i]? = some m) (hreg : h ∉ m.registered_hotkeys)
    (hlook : lookupTable s.registry h = none)
    (hl : Listener.register_hotkey s.listener s.os (encode h) nres = (.error e, l', os')) :
    Sys.register s i h cb nres = (.error (.System e), { s with listener := l', os := os' }) := by
  unfold Sys.register
  rw [hget]
  simp only [hreg, if_false, hlook, hl]

theorem Sys.register_vacant_ok {s : Sys} {i : Nat} {m : Manager} {h : Hotkey}
    {cb : Nat} {nres : Option Nat} {u : Unit} {l' : Listener}
    {os' : List ListenerHotkey}
    (hget : s.managers[i]? = some m) (hreg : h ∉ m.registered_hotkeys)
    (hlook : lookupTable s.registry h = none)
    (hl : Listener.register_hotkey s.listener s.os (encode h) nres = (.ok u, l', os')) :
    Sys.register s i h cb nres = (.ok (), { s with
      listener := l', os := os',
      registry := s.registry ++ [(h, [(m.id, cb)])],
      managers := updateManager s.managers i
        (fun mg => { mg with registered_hotkeys := mg.registered_hotkeys ++ [h] }) }) := by
  unfold Sys.register
  rw [hget]
  simp only [hreg, if_false, hlook, hl]

theorem Sys.unregister_no_manager {s : Sys} {i : Nat} {h : Hotkey}
    {nres : Option Nat} (hget : s.managers[i]? = none) :
    Sys.unregister s i h nres = some (.ok (), s) := by
  unfold Sys.unregister
  rw [hget]

theorem Sys.unregister_not_owned {s : Sys} {i : Nat} {m : Manager} {h : Hotkey}
    {nres : Option Nat} (hget : s.managers[i]? = some m)
    (hreg : h ∉ m.registered_hotkeys) :
    Sys.unregister s i h nres = some (.error (.HotkeyNotRegistered h), s) := by
  unfold Sys.unregister
  rw [hget]
  simp only [hreg, if_false]

theorem Sys.unregister_shared {s : Sys} {i : Nat} {m : Manager} {h : Hotkey}
    {nres : Option Nat} {t : OwnerTable}
    (hget : s.managers[i]? = some m) (hreg : h ∈ m.registered_hotkeys)
    (hlook : lookupTable s.registry h = some t)
    (hmem : t.any (fun p => decide (p.1 = m.id)) = true)
    (hne : tableEraseId t m.id ≠ []) :
    Sys.unregister s i h nres = some (.ok (), { s with
      managers := updateManager s.managers i
        (fun mg => { mg with registered_hotkeys := mg.registered_hotkeys.erase h }),
      registry := setTable s.registry h (tableEraseId t m.id) }) := by
  unfold Sys.unregister
  rw [hget]
  simp only [hreg, if_true, hlook, hmem, hne, if_false]

theorem Sys.unregister_last {s : Sys} {i : Nat} {m : Manager} {h : Hotkey}
    {nres : Option Nat} {t : OwnerTable}
    (hget : s.managers[i]? = some m) (hreg : h ∈ m.registered_hotkeys)
    (hlook : lookupTable s.registry h = some t)
    (hmem : t.any (fun p => decide (p.1 = m.id)) = true)
    (hnil : tableEraseId t m.id = []) :
    Sys.unregister s i h nres =
      (match Listener.unregister_hotkey s.listener s.os (encode h) nres with
        | (.error e, l', os') => some (.error (.System e), { s with
            managers := updateManager s.managers i
              (fun mg => { mg with registered_hotkeys := mg.registered_hotkeys.erase h }),
            registry := removeEntry s.registry h, listener := l', os := os' })
        | (.ok _, l', os') => some (.ok (), { s with
            managers := updateManager s.managers i
              (fun mg => { mg with registered_hotkeys := mg.registered_hotkeys.erase h }),
            registry := removeEntry s.registry h, listener := l', os := os' })) := by
  unfold Sys.unregister
  rw [hget]
  simp only [hreg, if_true, hlook, hmem, hnil]

/-! ### The registry/listener consistency invariant -/

/-- Consistency of a system state: the OS-bound flag list coincides (as an
ordered list) with both the listener's handler flags and the encodings of
the registry entries; flags are pairwise distinct; owner tables are
non-empty with distinct owner ids; every hotkey in a manager's local list
has a registry entry containing that manager's id; local lists are
duplicate-free; listener handler ids are distinct and bounded by `last_id`;
manager ids are pairwise distinct and below `ID_COUNTER`. -/
structure Inv (s : Sys) : Prop where
  os_handlers : s.os = handlerFlags s.listener
  os_registry : s.os = registryFlags s.registry
  os_nodup : s.os.Nodup
  handler_ids_nodup : (s.listener.handlers.map Prod.fst).Nodup
  handler_ids_le : ∀ p ∈ s.listener.handlers, p.1 ≤ s.listener.last_id
  tables_ne : ∀ e ∈ s.registry, e.2 ≠ []
  tables_nodup : ∀ e ∈ s.registry, (e.2.map Prod.fst).Nodup
  owned_sub : ∀ (j : Nat) (m : Manager), s.managers[j]? = some m →
    ∀ h ∈ m.registered_hotkeys,
    ∃ t, lookupTable s.registry h = some t ∧ ∃ cb, (m.id, cb) ∈ t
  owned_nodup : ∀ (j : Nat) (m : Manager), s.managers[j]? = some m →
    m.registered_hotkeys.Nodup
  ids_ne : ∀ (j k : Nat) (mj mk : Manager), j ≠ k → s.managers[j]? = some mj →
    s.managers[k]? = some mk → mj.id ≠ mk.id
  ids_lt : ∀ (j : Nat) (m : Manager), s.managers[j]? = some m → m.id < s.next_id

/-- The initial state is consistent. -/
theorem Inv_start : Inv Sys.start := by
  refine ⟨rfl, rfl, List.nodup_nil, List.nodup_nil, ?_, ?_, ?_, ?_, ?_, ?_, ?_⟩
  all_goals simp [Sys.start, Listener.new]

/-- `HotkeyManager::new` preserves consistency. -/
theorem Inv.newManager {s : Sys} (hI : Inv s) : Inv s.newManager := by
  obtain ⟨h1, h2, h3, h4, h5, h6, h7, h8, h9, h10, h11⟩ := hI
  refine ⟨h1, h2, h3, h4, h5, h6, h7, ?_, ?_, ?_, ?_⟩
  · intro j m hm h hh
    rw [Sys.newManager] at hm
    simp only at hm
    rw [getElem_append_singleton] at hm
    by_cases hj : j = s.managers.length
    · rw [if_pos hj] at hm
      cases hm
      simp at hh
    · rw [if_neg hj] at hm
      exact h8 j m hm h hh
  · intro j m hm
    rw [Sys.newManager] at hm
    simp only at hm
    rw [getElem_append_singleton] at hm
    by_cases hj : j = s.managers.length
    · rw [if_pos hj] at hm
      cases hm
      exact List.nodup_nil
    · rw [if_neg hj] at hm
      exact h9 j m hm
  · intro j k mj mk hjk hmj hmk
    rw [Sys.newManager] at hmj hmk
    simp only at hmj hmk
    rw [getElem_append_singleton] at hmj hmk
    by_cases hj : j = s.managers.length <;> by_cases hk : k = s.managers.length
    · exact absurd (hj.trans hk.symm) hjk
    · rw [if_pos hj] at hmj
      rw [if_neg hk] at hmk
      cases hmj
      have := h11 k mk hmk
      simp only
      omega
    · rw [if_neg hj] at hmj
      rw [if_pos hk] at hmk
      cases hmk
      have := h11 j mj hmj
      simp only
      omega
    · rw [if_neg hj] at hmj
      rw [if_neg hk] at hmk
      exact h10 j k mj mk hjk hmj hmk
  · intro j m hm
    rw [Sys.newManager] at hm
    simp only at hm
    rw [getElem_append_singleton] at hm
    by_cases hj : j = s.managers.length
    · rw [if_pos hj] at hm
      cases hm
      show s.next_id < s.next_id + 1
      omega
    · rw [if_neg hj] at hm
      have := h11 j m hm
      show m.id < s.next_id + 1
      omega

theorem updateManager_id_getElem {ms : List Manager} {i : Nat}
    {f : Manager → Manager} {j : Nat} {m' : Manager}
    (hm' : (if j = i then ms[j]?.map f else ms[j]?) = some m')
    (hf : ∀ m, (f m).id = m.id) :
    ∃ m0, ms[j]? = some m0 ∧ m'.id = m0.id := by
  by_cases hji : j = i
  · rw [if_pos hji] at hm'
    rcases Option.map_eq_some'.mp hm' with ⟨m0, hm0, hfm0⟩
    exact ⟨m0, hm0, hfm0 ▸ hf m0⟩
  · rw [if_neg hji] at hm'
    exact ⟨m', hm', rfl⟩

theorem any_eq_false_not_mem {hs : List (Nat × ListenerHotkey)} {hk : ListenerHotkey}
    (hdup : hs.any (fun p => decide (p.2 = hk)) = false) : hk ∉ hs.map Prod.snd := by
  intro hmem
  rcases List.mem_map.mp hmem with ⟨p, hp, hp2⟩
  have : hs.any (fun p => decide (p.2 = hk)) = true :=
    List.any_eq_true.mpr ⟨p, hp, by simp [hp2]⟩
  rw [this] at hdup
  cases hdup

/-- `HotkeyManager::register` preserves consistency, whatever the native
oracle answers. -/
theorem Inv.register {s : Sys} (hI : Inv s) (i : Nat) (h : Hotkey) (cb : Nat)
    (nres : Option Nat) : Inv (Sys.register s i h cb nres).2 := by
  obtain ⟨h1, h2, h3, h4, h5, h6, h7, h8, h9, h10, h11⟩ := hI
  cases hget : s.managers[i]? with
  | none =>
    rw [Sys.register_no_manager hget]
    exact ⟨h1, h2, h3, h4, h5, h6, h7, h8, h9, h10, h11⟩
  | some m =>
    by_cases hreg : h ∈ m.registered_hotkeys
    · rw [Sys.register_already hget hreg]
      exact ⟨h1, h2, h3, h4, h5, h6, h7, h8, h9, h10, h11⟩
    · cases hlook : lookupTable s.registry h with
      | some t =>
        rw [Sys.register_occupied hget hreg hlook]
        refine ⟨h1, ?_, h3, h4, h5, ?_, ?_, ?_, ?_, ?_, ?_⟩
        · rw [registryFlags_setTable]
          exact h2
        · intro e he
          rcases mem_setTable he with he' | he'
          · exact h6 e he'
          · rw [he']
            exact tableInsert_ne_nil t m.id cb
        · intro e he
          rcases mem_setTable he with he' | he'
          · exact h7 e he'
          · rw [he']
            exact nodup_tableInsert m.id cb (h7 (h, t) (mem_of_lookupTable hlook))
        · intro j m' hm' h'' hh''
          rw [updateManager_getElem] at hm'
          by_cases hji : j = i
          · rw [if_pos hji, hji, hget, Option.map_some'] at hm'
            injection hm' with hm'
            subst hm'
            rcases List.mem_append.mp hh'' with hold | hnew
            · obtain ⟨t'', ht'', cb'', hcb''⟩ := h8 i m hget h'' hold
              have hne : h'' ≠ h := fun hc => hreg (hc ▸ hold)
              exact ⟨t'', by rw [lookupTable_setTable_ne hne]; exact ht'', cb'', hcb''⟩
            · have hh : h'' = h := by simpa using hnew
              subst hh
              exact ⟨tableInsert t m.id cb, lookupTable_setTable_self hlook _, cb,
                mem_tableInsert_self t m.id cb⟩
          · rw [if_neg hji] at hm'
            obtain ⟨t'', ht'', cb'', hcb''⟩ := h8 j m' hm' h'' hh''
            by_cases hhh : h'' = h
            · subst hhh
              have htt : t'' = t := Option.some.inj (ht''.symm.trans hlook)
              subst htt
              refine ⟨tableInsert t'' m.id cb, lookupTable_setTable_self hlook _, cb'', ?_⟩
              exact mem_tableInsert_of_ne m.id cb hcb''
                (h10 j i m' m hji hm' hget)
            · exact ⟨t'', by rw [lookupTable_setTable_ne hhh]; exact ht'', cb'', hcb''⟩
        · intro j m' hm'
          rw [updateManager_getElem] at hm'
          by_cases hji : j = i
          · rw [if_pos hji, hji, hget, Option.map_some'] at hm'
            injection hm' with hm'
            subst hm'
            exact List.Nodup.append (h9 i m hget) (List.nodup_singleton h)
              (by simpa [List.disjoint_singleton] using hreg)
          · rw [if_neg hji] at hm'
            exact h9 j m' hm'
        · intro j k mj mk hjk hmj hmk
          rw [updateManager_getElem] at hmj hmk
          obtain ⟨mj0, hmj0, hj0⟩ := updateManager_id_getElem hmj (fun _ => rfl)
          obtain ⟨mk0, hmk0, hk0⟩ := updateManager_id_getElem hmk (fun _ => rfl)
          rw [hj0, hk0]
          exact h10 j k mj0 mk0 hjk hmj0 hmk0
        · intro j m' hm'
          rw [updateManager_getElem] at hm'
          obtain ⟨m0, hm0, hid0⟩ := updateManager_id_getElem hm' (fun _ => rfl)
          rw [hid0]
          exact h11 j m0 hm0
      | none =>
        rcases hl : Listener.register_hotkey s.listener s.os (encode h) nres with ⟨res, l', os'⟩
        cases res with
        | error e =>
          rw [Sys.register_vacant_err hget hreg hlook hl]
          obtain ⟨hh', ho', hle⟩ := register_hotkey_error hl
          refine ⟨?_, ?_, ?_, ?_, ?_, h6, h7, h8, h9, h10, h11⟩
          · show os' = handlerFlags l'
            rw [ho', h1]
            unfold handlerFlags
            rw [hh']
          · show os' = registryFlags s.registry
            rw [ho']
            exact h2
          · show os'.Nodup
            rw [ho']
            exact h3
          · show (l'.handlers.map Prod.fst).Nodup
            rw [hh']
            exact h4
          · intro p hp
            rw [hh'] at hp
            exact (h5 p hp).trans hle
        | ok u =>
          rw [Sys.register_vacant_ok hget hreg hlook hl]
          obtain ⟨hdup, hnres, hl', hos'⟩ := register_hotkey_ok hl
          have hnotmem : encode h ∉ handlerFlags s.listener := any_eq_false_not_mem hdup
          have hosnot : encode h ∉ s.os := h1 ▸ hnotmem
          rw [if_neg hosnot] at hos'
          subst hl'
          subst hos'
          refine ⟨?_, ?_, ?_, ?_, ?_, ?_, ?_, ?_, ?_, ?_, ?_⟩
          · show s.os ++ [encode h] = List.map Prod.snd
              (s.listener.handlers ++ [(s.listener.last_id + 1, encode h)])
            rw [List.map_append, h1]
            rfl
          · show s.os ++ [encode h] = registryFlags (s.registry ++ [(h, [(m.id, cb)])])
            rw [registryFlags_append, h2]
            rfl
          · show (s.os ++ [encode h]).Nodup
            exact List.Nodup.append h3 (List.nodup_singleton _)
              (by simpa [List.disjoint_singleton] using hosnot)
          · show ((s.listener.handlers ++
              [(s.listener.last_id + 1, encode h)]).map Prod.fst).Nodup
            simp only [List.map_append, List.map_cons, List.map_nil]
            refine List.Nodup.append h4 (List.nodup_singleton _) ?_
            simp only [List.disjoint_singleton]
            intro hmem
            rcases List.mem_map.mp hmem with ⟨p, hp, hp1⟩
            have := h5 p hp
            omega
          · intro p hp
            rcases List.mem_append.mp hp with hp' | hp'
            · have := h5 p hp'
              show p.1 ≤ s.listener.last_id + 1
              omega
            · have hpe : p = (s.listener.last_id + 1, encode h) := by simpa using hp'
              show p.1 ≤ s.listener.last_id + 1
              rw [hpe]
          · intro e' he'
            rcases List.mem_append.mp he' with he'' | he''
            · exact h6 e' he''
            · have : e' = (h, [(m.id, cb)]) := by simpa using he''
              rw [this]
              simp
          · intro e' he'
            rcases List.mem_append.mp he' with he'' | he''
            · exact h7 e' he''
            · have : e' = (h, [(m.id, cb)]) := by simpa using he''
              rw [this]
              simp
          · intro j m' hm' h'' hh''
            rw [updateManager_getElem] at hm'
            by_cases hji : j = i
            · rw [if_pos hji, hji, hget, Option.map_some'] at hm'
              injection hm' with hm'
              subst hm'
              rcases List.mem_append.mp hh'' with hold | hnew
              · obtain ⟨t'', ht'', cb'', hcb''⟩ := h8 i m hget h'' hold
                exact ⟨t'', lookupTable_append_of_some ht'' _, cb'', hcb''⟩
              · have hh : h'' = h := by simpa using hnew
                subst hh
                exact ⟨[(m.id, cb)], lookupTable_append_self hlook _, cb,
                  List.mem_singleton.mpr rfl⟩
            · rw [if_neg hji] at hm'
              obtain ⟨t'', ht'', cb'', hcb''⟩ := h8 j m' hm' h'' hh''
              exact ⟨t'', lookupTable_append_of_some ht'' _, cb'', hcb''⟩
          · intro j m' hm'
            rw [updateManager_getElem] at hm'
            by_cases hji : j = i
            · rw [if_pos hji, hji, hget, Option.map_some'] at hm'
              injection hm' with hm'
              subst hm'
              exact List.Nodup.append (h9 i m hget) (List.nodup_singleton h)
                (by simpa [List.disjoint_singleton] using hreg)
            · rw [if_neg hji] at hm'
              exact h9 j m' hm'
          · intro j k mj mk hjk hmj hmk
            rw [updateManager_getElem] at hmj hmk
            obtain ⟨mj0, hmj0, hj0⟩ := updateManager_id_getElem hmj (fun _ => rfl)
            obtain ⟨mk0, hmk0, hk0⟩ := updateManager_id_getElem hmk (fun _ => rfl)
            rw [hj0, hk0]
            exact h10 j k mj0 mk0 hjk hmj0 hmk0
          · intro j m' hm'
            rw [updateManager_getElem] at hm'
            obtain ⟨m0, hm0, hid0⟩ := updateManager_id_getElem hm' (fun _ => rfl)
            rw [hid0]
            exact h11 j m0 hm0

/-- `HotkeyManager::unregister` preserves consistency when the native
unregister call (if one happens) succeeds. -/
theorem Inv.unregister {s : Sys} (hI : Inv s) {i : Nat} {h : Hotkey}
    {res : Except Error Unit} {s' : Sys}
    (hres : Sys.unregister s i h none = some (res, s')) : Inv s' := by
  obtain ⟨h1, h2, h3, h4, h5, h6, h7, h8, h9, h10, h11⟩ := hI
  cases hget : s.managers[i]? with
  | none =>
    rw [Sys.unregister_no_manager hget] at hres
    injection hres with hres
    rw [Prod.mk.injEq] at hres
    obtain ⟨-, hs'⟩ := hres
    subst hs'
    exact ⟨h1, h2, h3, h4, h5, h6, h7, h8, h9, h10, h11⟩
  | some m =>
    by_cases hreg : h ∈ m.registered_hotkeys
    · cases hlook : lookupTable s.registry h with
      | none =>
        obtain ⟨t, ht, -⟩ := h8 i m hget h hreg
        exact Option.noConfusion (ht.symm.trans hlook)
      | some t =>
        obtain ⟨t0, ht0, cb0, hcb0⟩ := h8 i m hget h hreg
        have htt : t0 = t := Option.some.inj (ht0.symm.trans hlook)
        subst htt
        have hmem : t0.any (fun p => decide (p.1 = m.id)) = true :=
          List.any_eq_true.mpr ⟨(m.id, cb0), hcb0, by simp⟩
        by_cases hnil : tableEraseId t0 m.id = []
        · rw [Sys.unregister_last hget hreg hlook hmem hnil] at hres
          have hosm : encode h ∈ handlerFlags s.listener :=
            h1 ▸ h2 ▸ encode_mem_registryFlags hlook
          obtain ⟨fid, hfid⟩ := findHandlerId_isSome hosm
          rw [unregister_hotkey_found_ok hfid] at hres
          injection hres with hres
          rw [Prod.mk.injEq] at hres
          obtain ⟨-, hs'⟩ := hres
          subst hs'
          refine ⟨?_, ?_, ?_, ?_, ?_, ?_, ?_, ?_, ?_, ?_, ?_⟩
          · show eraseFlag s.os (encode h) = List.map Prod.snd (eraseHandler s.listener.handlers fid)
            rw [map_snd_eraseHandler h4 hfid, h1]
            rfl
          · show eraseFlag s.os (encode h) = registryFlags (removeEntry s.registry h)
            rw [registryFlags_removeEntry (h2 ▸ h3) hlook, h2]
          · exact nodup_eraseFlag _ h3
          · exact ((eraseHandler_sublist s.listener.handlers fid).map Prod.fst).nodup h4
          · intro p hp
            exact h5 p ((eraseHandler_sublist s.listener.handlers fid).subset hp)
          · intro e he
            exact h6 e (mem_removeEntry he)
          · intro e he
            exact h7 e (mem_removeEntry he)
          · intro j m' hm' h'' hh''
            rw [updateManager_getElem] at hm'
            by_cases hji : j = i
            · rw [if_pos hji, hji, hget, Option.map_some'] at hm'
              injection hm' with hm'
              subst hm'
              have hh''m : h'' ∈ m.registered_hotkeys := List.mem_of_mem_erase hh''
              have hne : h'' ≠ h := by
                intro hc
                exact (h9 i m hget).not_mem_erase (hc ▸ hh'')
              obtain ⟨t'', ht'', cb'', hcb''⟩ := h8 i m hget h'' hh''m
              exact ⟨t'', by rw [lookupTable_removeEntry_ne hne]; exact ht'', cb'', hcb''⟩
            · rw [if_neg hji] at hm'
              have hne : h'' ≠ h := by
                intro hc
                subst hc
                obtain ⟨t'', ht'', cb'', hcb''⟩ := h8 j m' hm' h'' hh''
                have : t'' = t0 := Option.some.inj (ht''.symm.trans hlook)
                subst this
                have : m'.id = m.id := tableEraseId_eq_nil hnil _ hcb''
                exact h10 j i m' m hji hm' hget this
              obtain ⟨t'', ht'', cb'', hcb''⟩ := h8 j m' hm' h'' hh''
              exact ⟨t'', by rw [lookupTable_removeEntry_ne hne]; exact ht'', cb'', hcb''⟩
          · intro j m' hm'
            rw [updateManager_getElem] at hm'
            by_cases hji : j = i
            · rw [if_pos hji, hji, hget, Option.map_some'] at hm'
              injection hm' with hm'
              subst hm'
              exact (h9 i m hget).erase h
            · rw [if_neg hji] at hm'
              exact h9 j m' hm'
          · intro j k mj mk hjk hmj hmk
            rw [updateManager_getElem] at hmj hmk
            obtain ⟨mj0, hmj0, hj0⟩ := updateManager_id_getElem hmj (fun _ => rfl)
            obtain ⟨mk0, hmk0, hk0⟩ := updateManager_id_getElem hmk (fun _ => rfl)
            rw [hj0, hk0]
            exact h10 j k mj0 mk0 hjk hmj0 hmk0
          · intro j m' hm'
            rw [updateManager_getElem] at hm'
            obtain ⟨m0, hm0, hid0⟩ := updateManager_id_getElem hm' (fun _ => rfl)
            rw [hid0]
            exact h11 j m0 hm0
        · rw [Sys.unregister_shared hget hreg hlook hmem hnil] at hres
          injection hres with hres
          rw [Prod.mk.injEq] at hres
          obtain ⟨-, hs'⟩ := hres
          subst hs'
          refine ⟨h1, ?_, h3, h4, h5, ?_, ?_, ?_, ?_, ?_, ?_⟩
          · rw [registryFlags_setTable]
            exact h2
          · intro e he
            rcases mem_setTable he with he' | he'
            · exact h6 e he'
            · rw [he']
              exact hnil
          · intro e he
            rcases mem_setTable he with he' | he'
            · exact h7 e he'
            · rw [he']
              exact nodup_tableEraseId m.id (h7 (h, t0) (mem_of_lookupTable hlook))
          · intro j m' hm' h'' hh''
            rw [updateManager_getElem] at hm'
            by_cases hji : j = i
            · rw [if_pos hji, hji, hget, Option.map_some'] at hm'
              injection hm' with hm'
              subst hm'
              have hh''m : h'' ∈ m.registered_hotkeys := List.mem_of_mem_erase hh''
              have hne : h'' ≠ h := by
                intro hc
                exact (h9 i m hget).not_mem_erase (hc ▸ hh'')
              obtain ⟨t'', ht'', cb'', hcb''⟩ := h8 i m hget h'' hh''m
              exact ⟨t'', by rw [lookupTable_setTable_ne hne]; exact ht'', cb'', hcb''⟩
            · rw [if_neg hji] at hm'
              obtain ⟨t'', ht'', cb'', hcb''⟩ := h8 j m' hm' h'' hh''
              by_cases hne : h'' = h
              · subst hne
                have : t'' = t0 := Option.some.inj (ht''.symm.trans hlook)
                subst this
                refine ⟨tableEraseId t'' m.id, lookupTable_setTable_self hlook _, cb'', ?_⟩
                exact mem_tableEraseId_of_ne m.id hcb'' (h10 j i m' m hji hm' hget)
              · exact ⟨t'', by rw [lookupTable_setTable_ne hne]; exact ht'', cb'', hcb''⟩
          · intro j m' hm'
            rw [updateManager_getElem] at hm'
            by_cases hji : j = i
            · rw [if_pos hji, hji, hget, Option.map_some'] at hm'
              injection hm' with hm'
              subst hm'
              exact (h9 i m hget).erase h
            · rw [if_neg hji] at hm'
              exact h9 j m' hm'
          · intro j k mj mk hjk hmj hmk
            rw [updateManager_getElem] at hmj hmk
            obtain ⟨mj0, hmj0, hj0⟩ := updateManager_id_getElem hmj (fun _ => rfl)
            obtain ⟨mk0, hmk0, hk0⟩ := updateManager_id_getElem hmk (fun _ => rfl)
            rw [hj0, hk0]
            exact h10 j k mj0 mk0 hjk hmj0 hmk0
          · intro j m' hm'
            rw [updateManager_getElem] at hm'
            obtain ⟨m0, hm0, hid0⟩ := updateManager_id_getElem hm' (fun _ => rfl)
            rw [hid0]
            exact h11 j m0 hm0
    · rw [Sys.unregister_not_owned hget hreg] at hres
      injection hres with hres
      rw [Prod.mk.injEq] at hres
      obtain ⟨-, hs'⟩ := hres
      subst hs'
      exact ⟨h1, h2, h3, h4, h5, h6, h7, h8, h9, h10, h11⟩

/-- The oracle restriction under which registry/OS consistency is provable:
every native unregister outcome in the command is a success (`none`).
Register outcomes stay unconstrained. -/
def unregOracleOk : Cmd → Prop
  | Cmd.unregister _ _ nres => nres = none
  | Cmd.unregisterAll _ nres => ∀ o ∈ nres, o = none
  | _ => True

theorem Inv_unregisterLoop {s : Sys} (hI : Inv s) {i : Nat} {hks : List Hotkey}
    {nres : List (Option Nat)} (hok : ∀ o ∈ nres, o = none)
    {acc r : Except Error Unit} {s' : Sys}
    (hres : unregisterLoop s i hks nres acc = some (r, s')) : Inv s' := by
  induction hks generalizing s nres acc with
  | nil =>
    unfold unregisterLoop at hres
    injection hres with hres
    rw [Prod.mk.injEq] at hres
    obtain ⟨-, hs'⟩ := hres
    subst hs'
    exact hI
  | cons h rest ih =>
    unfold unregisterLoop at hres
    have hhead : nres.headD none = none := by
      cases nres with
      | nil => rfl
      | cons o os => exact hok o (List.mem_cons_self o os)
    cases hu : Sys.unregister s i h (nres.headD none) with
    | none =>
      rw [hu] at hres
      exact Option.noConfusion hres
    | some p =>
      obtain ⟨pr, ps⟩ := p
      rw [hu] at hres
      rw [hhead] at hu
      have hI' : Inv ps := hI.unregister hu
      exact ih hI' (fun o ho => hok o (List.mem_of_mem_tail ho)) hres

theorem Inv.unregisterAll {s : Sys} (hI : Inv s) {i : Nat}
    {nres : List (Option Nat)} (hok : ∀ o ∈ nres, o = none)
    {r : Except Error Unit} {s' : Sys}
    (hres : Sys.unregister_all s i nres = some (r, s')) : Inv s' := by
  unfold Sys.unregister_all at hres
  cases hget : s.managers[i]? with
  | none =>
    rw [hget] at hres
    injection hres with hres
    rw [Prod.mk.injEq] at hres
    obtain ⟨-, hs'⟩ := hres
    subst hs'
    exact hI
  | some m =>
    rw [hget] at hres
    exact Inv_unregisterLoop hI hok hres

theorem Inv_stepCmd {s : Sys} (hI : Inv s) {c : Cmd} (hok : unregOracleOk c)
    {s' : Sys} (hres : stepCmd s c = some s') : Inv s' := by
  cases c with
  | newManager =>
    unfold stepCmd at hres
    injection hres with hres
    subst hres
    exact hI.newManager
  | register i h cb nres =>
    unfold stepCmd at hres
    injection hres with hres
    subst hres
    exact hI.register i h cb nres
  | unregister i h nres =>
    have hn : nres = none := hok
    subst hn
    simp only [stepCmd] at hres
    cases hu : Sys.unregister s i h none with
    | none =>
      rw [hu] at hres
      exact Option.noConfusion hres
    | some p =>
      obtain ⟨pr, ps⟩ := p
      rw [hu] at hres
      injection hres with hres
      subst hres
      exact hI.unregister hu
  | unregisterAll i nres =>
    simp only [stepCmd] at hres
    cases hu : Sys.unregister_all s i nres with
    | none =>
      rw [hu] at hres
      exact Option.noConfusion hres
    | some p =>
      obtain ⟨pr, ps⟩ := p
      rw [hu] at hres
      injection hres with hres
      subst hres
      exact hI.unregisterAll hok hu

theorem Inv_runCmds {s : Sys} (hI : Inv s) {cmds : List Cmd}
    (hok : ∀ c ∈ cmds, unregOracleOk c) {s' : Sys}
    (hres : runCmds s cmds = some s') : Inv s' := by
  induction cmds generalizing s with
  | nil =>
    unfold runCmds at hres
    injection hres with hres
    subst hres
    exact hI
  | cons c cs ih =>
    unfold runCmds at hres
    cases hstep : stepCmd s c with
    | none =>
      rw [hstep] at hres
      exact Option.noConfusion hres
    | some s1 =>
      rw [hstep] at hres
      exact ih (Inv_stepCmd hI (hok c (List.mem_cons_self c cs)) hstep)
        (fun c' hc' => hok c' (List.mem_cons_of_mem _ hc')) hres

example : parse_hotkey "CTRL+P" = .ok ⟨[.CTRL], [.P]⟩ := by decide

example : parse_hotkey "5+5" = .error (.InvalidHotkey "duplicated key 5") := by decide

example : parse_hotkey "!" = .ok ⟨[.SHIFT], [.KEY_1]⟩ := by decide

example : parse_hotkey "" = .error (.InvalidHotkey "hotkey has no key specified") := by decide

example : Hotkey.display ⟨[], [.A, .B]⟩ = "A\"B" := by decide

example : Hotkey.display ⟨[.CTRL, .SHIFT], [.P]⟩ = "CTRL+SHIFT+P" := by decide

/-! ### The claims -/

/-- C1: the parse/display round-trip law fails on the code. The parser
produces the two-key hotkey `{[], [A, B]}` from `"A+B"`, but `Display`
joins keys with a double-quote character (lib.rs line 539 uses
`join("\"")` where the modifier fold uses `"+"`), rendering it as `A"B`,
which `parse_hotkey` rejects as an unknown key instead of returning the
hotkey. -/
theorem C1_display_roundtrip_fails :
    parse_hotkey "A+B" = .ok ⟨[], [Key.A, Key.B]⟩ ∧
    Hotkey.display ⟨[], [Key.A, Key.B]⟩ = "A\"B" ∧
    parse_hotkey "A\"B" = .error (.InvalidHotkey "unknown key A\"B") := by
  decide

/-- C2, counterexample: after registering `{[], [A]}` (native success), an
unregister whose native `UnregisterHotKey` fails (code 3) still removes the
global registry entry — the lookup afterwards is `none` — while the OS-side
binding survives, and the error is propagated. The claim's "the registry
entry is left in place" is false. -/
theorem C2_counterexample :
    ((runCmds Sys.start [Cmd.newManager, Cmd.register 0 ⟨[], [Key.A]⟩ 5 none]).bind
        (fun s1 => Sys.unregister s1 0 ⟨[], [Key.A]⟩ (some 3))).map
      (fun p => (p.1, lookupTable p.2.registry ⟨[], [Key.A]⟩, p.2.os)) =
      some (.error (.System (.BackendApiError 3)), none, [encode ⟨[], [Key.A]⟩]) := by
  decide

/-- C2, amended: when the removed owner was the last owner,
`HotkeyManager::unregister` removes the registry entry **before** issuing
the native unregister; a failing native call is reported as
`Error::System(BackendApiError)` but the entry stays removed and the
OS-bound set is left untouched (still containing the binding). -/
theorem C2_amended (s : Sys) (i : Nat) (m : Manager) (h : Hotkey)
    (t : OwnerTable) (code : Nat)
    (hget : s.managers[i]? = some m)
    (hown : h ∈ m.registered_hotkeys)
    (hlook : lookupTable s.registry h = some t)
    (hid : t.any (fun p => decide (p.1 = m.id)) = true)
    (hlast : tableEraseId t m.id = [])
    (hnat : encode h ∈ handlerFlags s.listener) :
    ∃ s', Sys.unregister s i h (some code)
        = some (.error (.System (.BackendApiError code)), s')
      ∧ s'.registry = removeEntry s.registry h
      ∧ s'.os = s.os := by
  obtain ⟨fid, hfid⟩ := findHandlerId_isSome hnat
  rw [Sys.unregister_last hget hown hlook hid hlast,
    unregister_hotkey_found_err hfid]
  exact ⟨_, rfl, rfl, rfl⟩

/-- C2, amended, witnessed at the state reached by registering `{[], [A]}`
with a fresh manager. -/
theorem C2_amended_witness :
    ∃ s', Sys.unregister
        ⟨⟨1, [(1, encode ⟨[], [Key.A]⟩)]⟩, [encode ⟨[], [Key.A]⟩],
          [(⟨[], [Key.A]⟩, [(0, 5)])], [⟨[⟨[], [Key.A]⟩], 0⟩], 1⟩
        0 ⟨[], [Key.A]⟩ (some 3)
        = some (.error (.System (.BackendApiError 3)), s')
      ∧ s'.registry = removeEntry [(⟨[], [Key.A]⟩, [(0, 5)])] ⟨[], [Key.A]⟩
      ∧ s'.os = [encode ⟨[], [Key.A]⟩] :=
  C2_amended _ 0 ⟨[⟨[], [Key.A]⟩], 0⟩ ⟨[], [Key.A]⟩ [(0, 5)] 3
    (by decide) (by decide) (by decide) (by decide) (by decide) (by decide)

/-- C3: registering a hotkey with no registry entry when the listener call
fails leaves the registry and the manager list untouched (the resulting
state differs from `s` only in the listener bookkeeping and OS set, which
the listener error also leaves unchanged on the OS side), and the caller
receives the native error wrapped as `Error::System`. -/
theorem C3_register_native_failure (s : Sys) (i : Nat) (m : Manager)
    (h : Hotkey) (cb : Nat) (nres : Option Nat) (e : HotkeyError)
    (l' : Listener) (os' : List ListenerHotkey)
    (hget : s.managers[i]? = some m)
    (hown : h ∉ m.registered_hotkeys)
    (hlook : lookupTable s.registry h = none)
    (hl : Listener.register_hotkey s.listener s.os (encode h) nres = (.error e, l', os')) :
    Sys.register s i h cb nres
        = (.error (.System e), { s with listener := l', os := os' })
      ∧ ({ s with listener := l', os := os' } : Sys).registry = s.registry
      ∧ ({ s with listener := l', os := os' } : Sys).managers = s.managers
      ∧ os' = s.os :=
  ⟨Sys.register_vacant_err hget hown hlook hl, rfl, rfl,
    (register_hotkey_error hl).2.1⟩

/-- C3, witnessed with a fresh manager and a native failure code 7. -/
theorem C3_witness :
    Sys.register ⟨⟨0, []⟩, [], [], [⟨[], 0⟩], 1⟩ 0 ⟨[], [Key.A]⟩ 5 (some 7)
      = (.error (.System (.BackendApiError 7)), ⟨⟨1, []⟩, [], [], [⟨[], 0⟩], 1⟩) :=
  (C3_register_native_failure ⟨⟨0, []⟩, [], [], [⟨[], 0⟩], 1⟩ 0 ⟨[], 0⟩
    ⟨[], [Key.A]⟩ 5 (some 7) (.BackendApiError 7) ⟨1, []⟩ []
    (by decide) (by decide) (by decide) (by decide)).1

/-- C6, counterexample: two parser-producible hotkeys with the same set of
modifiers and the same key list but different modifier order are **not**
equal: `derive(PartialEq)` on `Vec` fields compares ordered lists, so
modifier order affects equality, contradicting the claim. -/
theorem C6_counterexample :
    (∀ m ∈ ([.CTRL, .SHIFT] : List Modifier), m ∈ ([.SHIFT, .CTRL] : List Modifier)) ∧
    (∀ m ∈ ([.SHIFT, .CTRL] : List Modifier), m ∈ ([.CTRL, .SHIFT] : List Modifier)) ∧
    parse_hotkey "CTRL+SHIFT+P" = .ok ⟨[.CTRL, .SHIFT], [.P]⟩ ∧
    parse_hotkey "SHIFT+CTRL+P" = .ok ⟨[.SHIFT, .CTRL], [.P]⟩ ∧
    (⟨[.CTRL, .SHIFT], [.P]⟩ : Hotkey) ≠ ⟨[.SHIFT, .CTRL], [.P]⟩ := by
  decide

/-- C6, amended: `Hotkey` equality is the derived structural equality of its
two vectors — two hotkeys are equal exactly when their modifier lists are
equal as ordered lists and their key lists are equal; modifier order and
repetition therefore affect equality, not only display. -/
theorem C6_amended (h1 h2 : Hotkey) :
    h1 = h2 ↔ h1.modifiers = h2.modifiers ∧ h1.keys = h2.keys := by
  constructor
  · intro he
    rw [he]
    exact ⟨rfl, rfl⟩
  · rintro ⟨hm, hk⟩
    cases h1
    cases h2
    cases hm
    cases hk
    rfl

/-- C4, counterexample: the entry-iff-natively-registered invariant is not
preserved by every register/unregister sequence. After `newManager`,
a successful registration of `{[], [A]}` and an unregistration whose native
call fails, the reachable state has no registry entry for the hotkey while
its encoding is still OS-bound. -/
theorem C4_counterexample :
    (runCmds Sys.start [Cmd.newManager, Cmd.register 0 ⟨[], [Key.A]⟩ 5 none,
        Cmd.unregister 0 ⟨[], [Key.A]⟩ (some 3)]).map
      (fun s => (lookupTable s.registry ⟨[], [Key.A]⟩,
        decide (encode ⟨[], [Key.A]⟩ ∈ s.os))) = some (none, true) := by
  decide

/-- C4, amended: restricted to command sequences in which every native
unregister call succeeds, every reachable state keeps the OS-bound flag
list equal (as a list) to the encodings of the registry entries and to the
listener's handler flags — so a registry entry exists for a hotkey exactly
when its encoding is natively bound — and every entry's owner table is
non-empty. -/
theorem C4_amended (cmds : List Cmd) (hok : ∀ c ∈ cmds, unregOracleOk c)
    (s : Sys) (hrun : runCmds Sys.start cmds = some s) :
    s.os = registryFlags s.registry ∧ s.os = handlerFlags s.listener ∧
      ∀ e ∈ s.registry, e.2 ≠ [] := by
  have hI := Inv_runCmds Inv_start hok hrun
  exact ⟨hI.os_registry, hI.os_handlers, hI.tables_ne⟩

/-- C4, amended, witnessed on the sequence that creates a manager and
registers `{[], [A]}` with native success. -/
theorem C4_amended_witness :
    ([encode ⟨[], [Key.A]⟩] : List ListenerHotkey)
        = registryFlags [(⟨[], [Key.A]⟩, [(0, 5)])] ∧
      ([encode ⟨[], [Key.A]⟩] : List ListenerHotkey)
        = handlerFlags ⟨1, [(1, encode ⟨[], [Key.A]⟩)]⟩ ∧
      ∀ e ∈ [((⟨[], [Key.A]⟩ : Hotkey), [((0 : Nat), (5 : Nat))])], e.2 ≠ [] :=
  C4_amended [Cmd.newManager, Cmd.register 0 ⟨[], [Key.A]⟩ 5 none]
    (by
      intro c hc
      rcases List.mem_cons.mp hc with h | h
      · rw [h]
        trivial
      · rcases List.mem_cons.mp h with h2 | h2
        · rw [h2]
          trivial
        · simp at h2)
    ⟨⟨1, [(1, encode ⟨[], [Key.A]⟩)]⟩, [encode ⟨[], [Key.A]⟩],
      [(⟨[], [Key.A]⟩, [(0, 5)])], [⟨[⟨[], [Key.A]⟩], 0⟩], 1⟩
    (by decide)

/-- C7, counterexample: with manager 0 owning `{[], [A]}` and `{[], [B]}`,
`unregister_all` whose first native unregister fails (code 9) and second
succeeds returns `Ok` — yet the individual unregistration of `{[], [A]}`
from the same state fails with `BackendApiError 9`. So the return value is
not "the last failure encountered" and `Ok` does not mean nothing failed. -/
theorem C7_counterexample :
    ((runCmds Sys.start [Cmd.newManager, Cmd.register 0 ⟨[], [Key.A]⟩ 1 none,
        Cmd.register 0 ⟨[], [Key.B]⟩ 2 none]).bind
      (fun s => Sys.unregister_all s 0 [some 9, none])).map Prod.fst
        = some (.ok ()) ∧
    ((runCmds Sys.start [Cmd.newManager, Cmd.register 0 ⟨[], [Key.A]⟩ 1 none,
        Cmd.register 0 ⟨[], [Key.B]⟩ 2 none]).bind
      (fun s => Sys.unregister s 0 ⟨[], [Key.A]⟩ (some 9))).map Prod.fst
        = some (.error (.System (.BackendApiError 9))) := by
  decide

theorem unregisterLoop_eq_results (i : Nat) (hks : List Hotkey) :
    ∀ (s : Sys) (nres : List (Option Nat)) (acc : Except Error Unit),
    unregisterLoop s i hks nres acc =
      (unregisterResults s i hks nres).map (fun p => (p.1.getLastD acc, p.2)) := by
  induction hks with
  | nil => intro s nres acc; rfl
  | cons h rest ih =>
    intro s nres acc
    unfold unregisterLoop unregisterResults
    cases hu : Sys.unregister s i h (nres.headD none) with
    | none => rfl
    | some p =>
      obtain ⟨pr, ps⟩ := p
      show unregisterLoop ps i rest nres.tail pr =
        Option.map (fun p => (p.1.getLastD acc, p.2))
          (Option.map (fun p => (pr :: p.1, p.2))
            (unregisterResults ps i rest nres.tail))
      rw [ih ps nres.tail pr, Option.map_map]
      cases hr : unregisterResults ps i rest nres.tail with
      | none => rfl
      | some q =>
        show some (q.1.getLastD pr, q.2) = some ((pr :: q.1).getLastD acc, q.2)
        rw [List.getLastD_cons]

/-- C7, amended: `unregister_all` iterates over every owned hotkey,
continuing past failures, and returns the result of the **last**
unregistration attempt (`Ok` when the owned list is empty); failures
earlier in the iteration are discarded when a later attempt succeeds. -/
theorem C7_amended (s : Sys) (i : Nat) (m : Manager)
    (nres : List (Option Nat)) (hget : s.managers[i]? = some m) :
    Sys.unregister_all s i nres =
      (unregisterResults s i m.registered_hotkeys nres).map
        (fun p => (p.1.getLastD (.ok ()), p.2)) := by
  unfold Sys.unregister_all
  rw [hget]
  exact unregisterLoop_eq_results i m.registered_hotkeys s nres (.ok ())

/-- C7, amended, witnessed at the two-hotkey state of the counterexample. -/
theorem C7_amended_witness :
    Sys.unregister_all
        ⟨⟨2, [(1, encode ⟨[], [Key.A]⟩), (2, encode ⟨[], [Key.B]⟩)]⟩,
          [encode ⟨[], [Key.A]⟩, encode ⟨[], [Key.B]⟩],
          [(⟨[], [Key.A]⟩, [(0, 1)]), (⟨[], [Key.B]⟩, [(0, 2)])],
          [⟨[⟨[], [Key.A]⟩, ⟨[], [Key.B]⟩], 0⟩], 1⟩
        0 [some 9, none] =
      (unregisterResults
        ⟨⟨2, [(1, encode ⟨[], [Key.A]⟩), (2, encode ⟨[], [Key.B]⟩)]⟩,
          [encode ⟨[], [Key.A]⟩, encode ⟨[], [Key.B]⟩],
          [(⟨[], [Key.A]⟩, [(0, 1)]), (⟨[], [Key.B]⟩, [(0, 2)])],
          [⟨[⟨[], [Key.A]⟩, ⟨[], [Key.B]⟩], 0⟩], 1⟩
        0 [⟨[], [Key.A]⟩, ⟨[], [Key.B]⟩] [some 9, none]).map
        (fun p => (p.1.getLastD (.ok ()), p.2)) :=
  C7_amended _ 0 ⟨[⟨[], [Key.A]⟩, ⟨[], [Key.B]⟩], 0⟩ [some 9, none] (by decide)

/-- C5: two managers sharing one hotkey. From the state with two fresh
managers (ids 0 and 1): the first registration succeeds and performs the
one native registration; the second succeeds for **every** native oracle
(establishing that no native call takes place) and merely inserts its
callback into the existing owner table, leaving both callbacks present;
unregistering by manager 0 (again for every oracle — no native call)
removes only its callback, keeping manager 1's callback and the native
binding; unregistering by the last owner natively unregisters (the handler
and OS binding disappear) and removes the registry entry. -/
theorem C5_two_managers_share_hotkey (h : Hotkey) (cb1 cb2 : Nat)
    (nres2 nres3 : Option Nat) :
    Sys.register ⟨⟨0, []⟩, [], [], [⟨[], 0⟩, ⟨[], 1⟩], 2⟩ 0 h cb1 none =
      (.ok (), ⟨⟨1, [(1, encode h)]⟩, [encode h], [(h, [(0, cb1)])],
        [⟨[h], 0⟩, ⟨[], 1⟩], 2⟩) ∧
    Sys.register ⟨⟨1, [(1, encode h)]⟩, [encode h], [(h, [(0, cb1)])],
        [⟨[h], 0⟩, ⟨[], 1⟩], 2⟩ 1 h cb2 nres2 =
      (.ok (), ⟨⟨1, [(1, encode h)]⟩, [encode h], [(h, [(0, cb1), (1, cb2)])],
        [⟨[h], 0⟩, ⟨[h], 1⟩], 2⟩) ∧
    Sys.unregister ⟨⟨1, [(1, encode h)]⟩, [encode h],
        [(h, [(0, cb1), (1, cb2)])], [⟨[h], 0⟩, ⟨[h], 1⟩], 2⟩ 0 h nres3 =
      some (.ok (), ⟨⟨1, [(1, encode h)]⟩, [encode h], [(h, [(1, cb2)])],
        [⟨[], 0⟩, ⟨[h], 1⟩], 2⟩) ∧
    Sys.unregister ⟨⟨1, [(1, encode h)]⟩, [encode h], [(h, [(1, cb2)])],
        [⟨[], 0⟩, ⟨[h], 1⟩], 2⟩ 1 h none =
      some (.ok (), ⟨⟨1, []⟩, [], [], [⟨[], 0⟩, ⟨[], 1⟩], 2⟩) := by
  refine ⟨?_, ?_, ?_, ?_⟩
  · rw [Sys.register_vacant_ok
      (show (⟨⟨0, []⟩, [], [], [⟨[], 0⟩, ⟨[], 1⟩], 2⟩ : Sys).managers[0]?
        = some ⟨[], 0⟩ from rfl)
      (by simp)
      (show lookupTable [] h = none from rfl)
      (register_hotkey_success _ (by simp))]
    simp [updateManager]
  · rw [Sys.register_occupied
      (show (⟨⟨1, [(1, encode h)]⟩, [encode h], [(h, [(0, cb1)])],
          [⟨[h], 0⟩, ⟨[], 1⟩], 2⟩ : Sys).managers[1]? = some ⟨[], 1⟩ from rfl)
      (by simp)
      (show lookupTable [(h, [(0, cb1)])] h = some [(0, cb1)] from by
        simp [lookupTable])]
    simp [updateManager, setTable, tableInsert]
  · rw [Sys.unregister_shared
      (show (⟨⟨1, [(1, encode h)]⟩, [encode h], [(h, [(0, cb1), (1, cb2)])],
          [⟨[h], 0⟩, ⟨[h], 1⟩], 2⟩ : Sys).managers[0]? = some ⟨[h], 0⟩ from rfl)
      (by simp)
      (show lookupTable [(h, [(0, cb1), (1, cb2)])] h = some [(0, cb1), (1, cb2)]
        from by simp [lookupTable])
      (by simp)
      (by simp [tableEraseId])]
    simp [updateManager, setTable, tableEraseId]
  · rw [Sys.unregister_last
      (show (⟨⟨1, [(1, encode h)]⟩, [encode h], [(h, [(1, cb2)])],
          [⟨[], 0⟩, ⟨[h], 1⟩], 2⟩ : Sys).managers[1]? = some ⟨[h], 1⟩ from rfl)
      (by simp)
      (show lookupTable [(h, [(1, cb2)])] h = some [(1, cb2)] from by
        simp [lookupTable])
      (by simp)
      (by simp [tableEraseId]),
      unregister_hotkey_found_ok
        (show findHandlerId [(1, encode h)] (encode h) = some 1 from by
          simp [findHandlerId])]
    simp [updateManager, removeEntry, eraseHandler, eraseFlag]

/-- C8: `parse_hotkey("!")` succeeds with key `KEY_1` and `SHIFT` added
although not written; in general, when the token loop ends with the
`shifted` flag set and at least one key, `SHIFT` is appended to the
modifier list exactly once if absent, and not at all if it was already
written. -/
theorem C8_shifted_symbol :
    parse_hotkey "!" = .ok ⟨[Modifier.SHIFT], [Key.KEY_1]⟩ ∧
    ∀ (s : String) (st : ParseState), parseFold s = .ok st →
      st.shifted = true → st.keys ≠ [] →
      (Modifier.SHIFT ∈ st.modifiers →
        parse_hotkey s = .ok ⟨st.modifiers, st.keys⟩) ∧
      (Modifier.SHIFT ∉ st.modifiers →
        parse_hotkey s = .ok ⟨st.modifiers ++ [Modifier.SHIFT], st.keys⟩) := by
  refine ⟨by decide, ?_⟩
  intro s st hfold hsh hke
  constructor
  · intro hmem
    unfold parse_hotkey
    rw [hfold]
    show (if st.keys = []
        then Except.error (Error.InvalidHotkey "hotkey has no key specified")
        else Except.ok (Hotkey.mk (if st.shifted = true ∧ Modifier.SHIFT ∉ st.modifiers
          then st.modifiers ++ [Modifier.SHIFT] else st.modifiers) st.keys))
      = Except.ok (Hotkey.mk st.modifiers st.keys)
    rw [if_neg hke, if_neg (fun hc => hc.2 hmem)]
  · intro hnm
    unfold parse_hotkey
    rw [hfold]
    show (if st.keys = []
        then Except.error (Error.InvalidHotkey "hotkey has no key specified")
        else Except.ok (Hotkey.mk (if st.shifted = true ∧ Modifier.SHIFT ∉ st.modifiers
          then st.modifiers ++ [Modifier.SHIFT] else st.modifiers) st.keys))
      = Except.ok (Hotkey.mk (st.modifiers ++ [Modifier.SHIFT]) st.keys)
    rw [if_neg hke, if_pos ⟨hsh, hnm⟩]

/-- C8, witnessed on `"!"` itself, whose token loop ends in state
`{modifiers := [], keys := [KEY_1], shifted := true}`. -/
theorem C8_witness :
    parse_hotkey "!" = .ok ⟨[Modifier.SHIFT], [Key.KEY_1]⟩ ∧
    parse_hotkey "!" = .ok ⟨[] ++ [Modifier.SHIFT], [Key.KEY_1]⟩ :=
  ⟨C8_shifted_symbol.1,
    (C8_shifted_symbol.2 "!" ⟨[], [Key.KEY_1], true⟩ (by decide) rfl
      (by decide)).2 (by decide)⟩

/-- C9: `parse_hotkey("5+5")` fails with the duplicate-key error naming the
raw token `5`; in general a purely numeric (trimmed) token is rewritten to
`KEY_n` form before key lookup, and a token resolving to a key already in
the accumulated key list is the hard error `duplicated key {raw}` naming
the raw token. -/
theorem C9_duplicate_numeric_key :
    parse_hotkey "5+5" = .error (.InvalidHotkey "duplicated key 5") ∧
    (∀ (st : ParseState) (raw : List Char),
      isNumericTok (trimChars raw) = true →
      processToken st raw = keyPhase st ("KEY_".data ++ trimChars raw) raw) ∧
    (∀ (st : ParseState) (token raw : List Char) (k : Key) (sh : Bool),
      keyResolve token = some (k, sh) → k ∈ st.keys →
      keyPhase st token raw =
        .error (.InvalidHotkey (String.mk ("duplicated key ".data ++ raw)))) := by
  refine ⟨by decide, ?_, ?_⟩
  · intro st raw hnum
    have hcomp := hnum
    unfold isNumericTok at hcomp
    rw [Bool.and_eq_true, Bool.and_eq_true] at hcomp
    obtain ⟨⟨hne0, hdig⟩, -⟩ := hcomp
    have hne : trimChars raw ≠ [] := by
      intro hc
      rw [hc] at hne0
      simp at hne0
    have hnotname : ∀ (w : String), ¬(w.data.all Char.isDigit = true) →
        trimChars raw ≠ w.data := by
      intro w hw hc
      rw [hc] at hdig
      exact hw hdig
    have hfs : Modifier.fromStr (trimChars raw) = none := by
      cases hf : Modifier.fromStr (trimChars raw) with
      | none => rfl
      | some mo =>
        have heq : (Modifier.name mo).data = trimChars raw :=
          of_decide_eq_true (by simpa using List.find?_some hf)
        rw [← heq] at hdig
        cases mo <;> simp [Modifier.name] at hdig
    simp only [processToken]
    rw [if_neg hne,
      if_neg (by
        rintro (hc | hc)
        · exact hnotname "COMMAND" (by decide) hc
        · exact hnotname "CMD" (by decide) hc),
      if_neg (hnotname "CONTROL" (by decide)),
      if_neg (by
        rintro (hc | hc | hc | hc)
        · exact hnotname "COMMANDORCONTROL" (by decide) hc
        · exact hnotname "COMMANDORCTRL" (by decide) hc
        · exact hnotname "CMDORCTRL" (by decide) hc
        · exact hnotname "CMDORCONTROL" (by decide) hc),
      hfs, if_pos hnum]
  · intro st token raw k sh hres hk
    unfold keyPhase
    rw [hres]
    cases sh with
    | false =>
      show (if k ∈ st.keys then _ else _) = _
      rw [if_pos hk]
    | true =>
      show (if k ∈ ({ st with shifted := true } : ParseState).keys then _ else _) = _
      rw [if_pos (show k ∈ ({ st with shifted := true } : ParseState).keys from hk)]

/-- C9, witnessed: the numeric token `5` is rewritten to `KEY_5`, and a
second `KEY_5`-resolving token against keys `[KEY_5]` raises the
duplicate-key error naming the raw token. -/
theorem C9_witness :
    processToken ⟨[], [], false⟩ "5".data =
      keyPhase ⟨[], [], false⟩ ("KEY_".data ++ trimChars "5".data) "5".data ∧
    keyPhase ⟨[], [Key.KEY_5], false⟩ "KEY_5".data "5".data =
      .error (.InvalidHotkey (String.mk ("duplicated key ".data ++ "5".data))) :=
  ⟨C9_duplicate_numeric_key.2.1 ⟨[], [], false⟩ "5".data (by decide),
    C9_duplicate_numeric_key.2.2 ⟨[], [Key.KEY_5], false⟩ "KEY_5".data "5".data
      Key.KEY_5 false (by decide) (by decide)⟩

/-- C10: `is_registered` consults only the manager's own local list — it is
false whenever the hotkey is absent from that list, and concretely, after a
second manager registers `h` (so the global registry has an entry for `h`
with that manager's callback), the first manager still reports
`is_registered h = false`. -/
theorem C10_is_registered_is_local :
    (∀ (m : Manager) (h : Hotkey), h ∉ m.registered_hotkeys →
      m.is_registered h = false) ∧
    ∀ (h : Hotkey) (cb : Nat),
      (runCmds Sys.start [Cmd.newManager, Cmd.newManager,
          Cmd.register 1 h cb none]).map
        (fun s => ((s.managers[0]?).map (fun m => m.is_registered h),
          lookupTable s.registry h)) = some (some false, some [(1, cb)]) := by
  constructor
  · intro m h hm
    exact decide_eq_false hm
  · intro h cb
    rw [show runCmds Sys.start [Cmd.newManager, Cmd.newManager,
        Cmd.register 1 h cb none]
      = some (Sys.register ⟨⟨0, []⟩, [], [], [⟨[], 0⟩, ⟨[], 1⟩], 2⟩ 1 h cb none).2
      from rfl]
    rw [Sys.register_vacant_ok
      (show (⟨⟨0, []⟩, [], [], [⟨[], 0⟩, ⟨[], 1⟩], 2⟩ : Sys).managers[1]?
        = some ⟨[], 1⟩ from rfl)
      (by simp)
      (show lookupTable [] h = none from rfl)
      (register_hotkey_success _ (by simp))]
    simp [Manager.is_registered, lookupTable, updateManager]

/-- C10, witnessed at a concrete hotkey and callback. -/
theorem C10_witness :
    (⟨[], 0⟩ : Manager).is_registered ⟨[], [Key.A]⟩ = false ∧
    (runCmds Sys.start [Cmd.newManager, Cmd.newManager,
        Cmd.register 1 ⟨[], [Key.A]⟩ 7 none]).map
      (fun s => ((s.managers[0]?).map (fun m => m.is_registered ⟨[], [Key.A]⟩),
        lookupTable s.registry ⟨[], [Key.A]⟩)) = some (some false, some [(1, 7)]) :=
  ⟨C10_is_registered_is_local.1 ⟨[], 0⟩ ⟨[], [Key.A]⟩ (by decide),
    C10_is_registered_is_local.2 ⟨[], [Key.A]⟩ 7⟩

end TauriHotkey
